import Mathlib

/-!
# CUPS raster stream decoder — verification of the streaming decoder core

Shallow embedding of the `raster` package's streaming decoder (magic/version
detection, versioned header parsing, the per-line raw and run-length decoders,
page draining, and color parsing), together with theorems settling the claims
made about it.

Modelling conventions:
* A byte stream is a `List Nat`, each element a byte value (< 256 for real
  inputs; hypotheses state this where the value range matters).
* Go's `io.Reader` failures are modelled by `Err`: `io.EOF` is `Err.eof`
  (zero bytes were available) and `io.ErrUnexpectedEOF` is
  `Err.unexpectedEOF` (a read was partially satisfied), matching the
  contract of `io.ReadFull`.
* Stateful Go methods become functions that take and return the mutable
  pieces explicitly: the remaining stream, the `Page` record, and the
  caller's buffer contents (Go writes lines into a caller-supplied
  `[]byte`; we return the buffer's new contents).  On an error return the
  Go code may leave partially mutated state behind; no caller in the
  decoder observes that state, and the model returns only the error.
* `binary.Read` of a fixed-size record and `io.ReadFull` both read an exact
  number of bytes and fail with `eof` (nothing available) or
  `unexpectedEOF` (partially available); both are modelled by `readFull`.
-/

namespace CupsRaster

/-- A finite byte stream (contents of the underlying `io.Reader`). -/
abbrev ByteStream := List Nat

/-- The decoder's error values: the `Err*` sentinels of the package plus the
`io` errors it returns (`io.EOF`, `io.ErrUnexpectedEOF`). -/
inductive Err where
  | eof
  | unexpectedEOF
  | bufferTooSmall
  | invalidFormat
  | unsupported
  | unknownVersion
  deriving DecidableEq, Repr

/-- `binary.ByteOrder`: big or little endian. -/
inductive ByteOrder where
  | be
  | le
  deriving DecidableEq, Repr

/-- The stream versions accepted by `parseMagic` (1, 2 and 3). -/
inductive Version where
  | v1
  | v2
  | v3
  deriving DecidableEq, Repr

/-- Color order constant: chunky pixels. -/
def ChunkyPixels : Nat := 0

/-- Color order constant: banded pixels. -/
def BandedPixels : Nat := 1

/-- Color order constant: planar pixels. -/
def PlanarPixels : Nat := 2

/-- Color space constant: black. -/
def ColorSpaceBlack : Nat := 3

/-- Color space constant: CMYK. -/
def ColorSpaceCMYK : Nat := 6

/-- `io.ReadFull(r, b)` with `len(b) = n`: returns the `n` bytes read and the
rest of the stream; `io.EOF` when no byte was available (and `n > 0`),
`io.ErrUnexpectedEOF` when only part was. -/
def readFull (n : Nat) (s : ByteStream) : Except Err (List Nat × ByteStream) :=
  if n ≤ s.length then .ok (s.take n, s.drop n)
  else if s.length = 0 then .error .eof
  else .error .unexpectedEOF

/-- Go's `copy(dst, src)`: overwrites the first `min (len dst) (len src)`
bytes of `dst` with the corresponding bytes of `src`, keeping the rest of
`dst`; the result is the new contents of `dst`. -/
def goCopy (dst src : List Nat) : List Nat :=
  src.take dst.length ++ dst.drop (min dst.length src.length)

/-- The magic byte sequence "RaSt" (version 1, big endian). -/
def syncV1BE : List Nat := [82, 97, 83, 116]

/-- The magic byte sequence "tSaR" (version 1, little endian). -/
def syncV1LE : List Nat := [116, 83, 97, 82]

/-- The magic byte sequence "RaS2" (version 2, big endian). -/
def syncV2BE : List Nat := [82, 97, 83, 50]

/-- The magic byte sequence "2SaR" (version 2, little endian). -/
def syncV2LE : List Nat := [50, 83, 97, 82]

/-- The magic byte sequence "RaS3" (version 3, big endian). -/
def syncV3BE : List Nat := [82, 97, 83, 51]

/-- The magic byte sequence "3SaR" (version 3, little endian). -/
def syncV3LE : List Nat := [51, 83, 97, 82]

/-- `parseMagic`: maps a 4-byte magic to the stream's version and byte
order; any other input is rejected. -/
def parseMagic (b : List Nat) : Option (Version × ByteOrder) :=
  if b.length ≠ 4 then none
  else if b = syncV1BE then some (.v1, .be)
  else if b = syncV2BE then some (.v2, .be)
  else if b = syncV3BE then some (.v3, .be)
  else if b = syncV1LE then some (.v1, .le)
  else if b = syncV2LE then some (.v2, .le)
  else if b = syncV3LE then some (.v3, .le)
  else none

/-- The value of a 4-byte group as an unsigned 32-bit integer in the given
byte order. -/
def u32val (bo : ByteOrder) (bs : List Nat) : Nat :=
  match bo, bs with
  | .be, [a, b, c, d] => ((a * 256 + b) * 256 + c) * 256 + d
  | .le, [a, b, c, d] => ((d * 256 + c) * 256 + b) * 256 + a
  | _, _ => 0

/-- The `i`-th 32-bit word of a fixed binary block, in the given byte
order (how `binary.Read` decodes the `uint32` struct fields). -/
def wordAt (bo : ByteOrder) (block : List Nat) (i : Nat) : Nat :=
  u32val bo ((block.drop (4 * i)).take 4)

/-- `cstring(b)`: truncate at the first NUL byte; if no NUL is present the
result is the empty string. -/
def cstring (b : List Nat) : List Nat :=
  if b.contains 0 then b.takeWhile (fun x => x ≠ 0) else []

/-- The page header.  The source's `Header` carries every wire field; here
the four leading media strings and the nested CUPS raster parameters (the
fields the decoder itself consults) are extracted, while the remaining
fields of the fixed scalar blocks are consumed positionally by the header
decoder but not named, since no decoding decision depends on them.
Defaults let concrete headers be written compactly. -/
structure Header where
  MediaClass : List Nat := []
  MediaColor : List Nat := []
  MediaType : List Nat := []
  OutputType : List Nat := []
  cupsWidth : Nat := 0
  cupsHeight : Nat := 0
  cupsMediaType : Nat := 0
  cupsBitsPerColor : Nat := 0
  cupsBitsPerPixel : Nat := 0
  cupsBytesPerLine : Nat := 0
  cupsColorOrder : Nat := 0
  cupsColorSpace : Nat := 0
  cupsCompression : Nat := 0
  cupsRowCount : Nat := 0
  cupsRowFeed : Nat := 0
  cupsRowStep : Nat := 0
  cupsNumColors : Nat := 0
  cupsString : List (List Nat) := []
  cupsMarkerType : List Nat := []
  cupsRenderingIntent : List Nat := []
  cupsPageSizeName : List Nat := []
  deriving DecidableEq, Repr

/-- `bytesPerColor(h)`: the width in bytes of one color group, derived from
the header; unknown color orders are `ErrInvalidFormat`. -/
def bytesPerColor (h : Header) : Except Err Nat :=
  if h.cupsColorOrder = ChunkyPixels then .ok ((h.cupsBitsPerPixel + 7) / 8)
  else if h.cupsColorOrder = BandedPixels ∨ h.cupsColorOrder = PlanarPixels then
    .ok ((h.cupsBitsPerColor + 7) / 8)
  else .error .invalidFormat

/-- A `Page`: its header, the cached line-assembly buffer `line`, the size
of the one-color-group scratch buffer `color` (the source stores the buffer
itself; only its length matters), the pending repeat counter `lineRep`, and
the number of lines already read. -/
structure Page where
  header : Header
  line : ByteStream := []
  color : Nat := 0
  lineRep : Nat := 0
  linesRead : Nat := 0
  deriving DecidableEq, Repr

/-- `UnreadLines()`: the number of lines of the page not yet read. -/
def UnreadLines (p : Page) : Nat :=
  p.header.cupsHeight - p.linesRead

/-- `LineSize()`: the size of a single line, in bytes. -/
def LineSize (p : Page) : Nat :=
  p.header.cupsBytesPerLine

/-- Modelled from the spec: `Page.Size` is called by `ReadAll` but its body
is not among the provided sources; per the spec, `ReadAll(buffer)` requires
`len(buffer) ≥ bytesPerLine × unreadLines`, so `Size` is that product. -/
def Size (p : Page) : Nat :=
  p.header.cupsBytesPerLine * UnreadLines p

/-- The decoder: version and byte order fixed at open, plus the current
page (if any), which `NextPage` drains before parsing the next header. -/
structure Decoder where
  version : Version
  bo : ByteOrder
  curPage : Option Page := none
  deriving DecidableEq, Repr

/-- `NewDecoder(r)`: reads exactly 4 magic bytes; a short read surfaces the
underlying I/O failure unchanged; an unrecognized magic is
`ErrUnknownVersion`. -/
def NewDecoder (s : ByteStream) : Except Err (Decoder × ByteStream) :=
  match readFull 4 s with
  | .error e => .error e
  | .ok (magic, s') =>
    match parseMagic magic with
    | none => .error .unknownVersion
    | some (v, bo) => .ok ({ version := v, bo := bo, curPage := none }, s')

/-- Decoder state while parsing a header: the remaining stream and the
sticky error `d.err` set by the `readCString` helpers. -/
structure DecSt where
  s : ByteStream
  err : Option Err := none
  deriving DecidableEq, Repr

/-- `readCString`: if a previous string read failed, do nothing; else read
64 raw bytes and truncate at the first NUL.  A short read leaves the
partially filled zero-initialized buffer and records the `io.ReadFull`
error in the sticky error. -/
def readCString (st : DecSt) : List Nat × DecSt :=
  match st.err with
  | some _ => ([], st)
  | none =>
    let b := st.s.take 64 ++ List.replicate (64 - st.s.length) 0
    if 64 ≤ st.s.length then (cstring b, { s := st.s.drop 64, err := none })
    else if st.s.length = 0 then (cstring b, { s := [], err := some .eof })
    else (cstring b, { s := [], err := some .unexpectedEOF })

/-- Read `n` consecutive NUL-terminated 64-byte strings. -/
def readCStrings (n : Nat) (st : DecSt) : List (List Nat) × DecSt :=
  match n with
  | 0 => ([], st)
  | n + 1 =>
    let r := readCString st
    let rs := readCStrings n r.2
    (r.1 :: rs.1, rs.2)

/-- The byte size of the fixed scalar block of a version-1 header:
37 `uint32` fields plus the 4-word bounding box, 41 × 4 bytes. -/
def v1BlockSize : Nat := 164

/-- The byte size of the version-2 extension scalar block: 40 × 4 bytes
(count, scale factor, 2-float page size, 4-float imaging box, 16 integers,
16 floats). -/
def v2BlockSize : Nat := 160

/-- The scalar-block phase of `decodeV1Header`: one `binary.Read` of the
fixed 164-byte block (executed regardless of the sticky string error,
exactly as in the source); returns the block-read error if that read
fails, else the sticky error if any, else the header.  The CUPS raster
parameters are words 29–40 of the block; `strs` holds the four media
strings already read. -/
def decodeV1Tail (bo : ByteOrder) (strs : List (List Nat)) (st4 : DecSt) :
    Except Err Header × DecSt :=
  if 164 ≤ st4.s.length then
    let block := st4.s.take 164
    let h : Header :=
      { MediaClass := strs.getD 0 []
        MediaColor := strs.getD 1 []
        MediaType := strs.getD 2 []
        OutputType := strs.getD 3 []
        cupsWidth := wordAt bo block 29
        cupsHeight := wordAt bo block 30
        cupsMediaType := wordAt bo block 31
        cupsBitsPerColor := wordAt bo block 32
        cupsBitsPerPixel := wordAt bo block 33
        cupsBytesPerLine := wordAt bo block 34
        cupsColorOrder := wordAt bo block 35
        cupsColorSpace := wordAt bo block 36
        cupsCompression := wordAt bo block 37
        cupsRowCount := wordAt bo block 38
        cupsRowFeed := wordAt bo block 39
        cupsRowStep := wordAt bo block 40 }
    match st4.err with
    | some e => (.error e, { s := st4.s.drop 164, err := st4.err })
    | none => (.ok h, { s := st4.s.drop 164, err := none })
  else if st4.s.length = 0 then (.error .eof, { s := [], err := st4.err })
  else (.error .unexpectedEOF, { s := [], err := st4.err })

/-- `decodeV1Header`: four 64-byte strings (read with the sticky-error
helper, the same chain as `readCStrings 4`), then the scalar block. -/
def decodeV1Header (bo : ByteOrder) (st : DecSt) : Except Err Header × DecSt :=
  decodeV1Tail bo (readCStrings 4 st).1 (readCStrings 4 st).2

/-- The extension phase of `decodeV2Header`: the 160-byte extension block,
then 16 + 3 more 64-byte strings (one `readCStrings 19` chain, identical
to the source's 16-element loop followed by the three named reads). -/
def decodeV2Tail (bo : ByteOrder) (h : Header) (st1 : DecSt) :
    Except Err Header × DecSt :=
  if 160 ≤ st1.s.length then
    let block := st1.s.take 160
    let rs := readCStrings 19 { s := st1.s.drop 160, err := st1.err }
    let h2 : Header :=
      { h with
        cupsNumColors := wordAt bo block 0
        cupsString := rs.1.take 16
        cupsMarkerType := rs.1.getD 16 []
        cupsRenderingIntent := rs.1.getD 17 []
        cupsPageSizeName := rs.1.getD 18 [] }
    match rs.2.err with
    | some e => (.error e, rs.2)
    | none => (.ok h2, rs.2)
  else if st1.s.length = 0 then (.error .eof, { s := [], err := st1.err })
  else (.error .unexpectedEOF, { s := [], err := st1.err })

/-- `decodeV2Header`: the version-1 layout, then the 160-byte extension
block and its strings. -/
def decodeV2Header (bo : ByteOrder) (st : DecSt) : Except Err Header × DecSt :=
  match decodeV1Header bo st with
  | (.error e, st') => (.error e, st')
  | (.ok h, st1) => decodeV2Tail bo h st1

/-- Header decoding per version: v1 layout for version 1, v1 plus the v2
extension for versions 2 and 3. -/
def decodeHeader (v : Version) (bo : ByteOrder) (st : DecSt) : Except Err Header × DecSt :=
  match v with
  | .v1 => decodeV1Header bo st
  | .v2 => decodeV2Header bo st
  | .v3 => decodeV2Header bo st

/-- Total byte length of a well-formed header on the wire: 4 × 64 string
bytes + 164 for version 1; plus 160 + 19 × 64 for versions 2 and 3. -/
def headerLen (v : Version) : Nat :=
  match v with
  | .v1 => 420
  | .v2 => 1796
  | .v3 => 1796

/-- The literal branch of the run-length loop: read `k` color groups of
`bpc` bytes each, appending each to the line as it is read. -/
def readGroups (bpc : Nat) : Nat → List Nat → ByteStream → Except Err (List Nat × ByteStream)
  | 0, line, s => .ok (line, s)
  | k + 1, line, s =>
    match readFull bpc s with
    | .error e => .error e
    | .ok (grp, s') => readGroups bpc k (line ++ grp) s'

theorem readFull_ok_len {n : Nat} {s : ByteStream} {a s'} (h : readFull n s = .ok (a, s')) :
    s'.length ≤ s.length := by
  unfold readFull at h
  split_ifs at h <;> (try cases h) <;> simp

theorem readGroups_ok_len {bpc : Nat} :
    ∀ {k : Nat} {line s l' s'}, readGroups bpc k line s = .ok (l', s') → s'.length ≤ s.length := by
  intro k
  induction k with
  | zero => intro line s l' s' h; cases h; exact le_refl _
  | succ k ih =>
    intro line s l' s' h
    unfold readGroups at h
    cases hr : readFull bpc s with
    | error e => rw [hr] at h; cases h
    | ok p => rw [hr] at h; exact le_trans (ih h) (readFull_ok_len hr)

/-- The line-assembly loop of `readV2Line`: while the line is shorter than
`bytesPerLine`, read a packet byte `n`; `n ≤ 127` means one color group
repeated `n+1` times, otherwise `257 − n` literal color groups.  Each
iteration consumes at least the packet byte, so the recursion is on the
stream length. -/
def assemble (bpl bpc : Nat) (line : List Nat) (s : ByteStream) :
    Except Err (List Nat × ByteStream) :=
  if bpl ≤ line.length then .ok (line, s)
  else
    match s with
    | [] => .error .eof
    | n :: rest =>
      if n ≤ 127 then
        match h1 : readFull bpc rest with
        | .error e => .error e
        | .ok (grp, rest') =>
          assemble bpl bpc (line ++ (List.replicate (n + 1) grp).flatten) rest'
      else
        match h2 : readGroups bpc (257 - n) line rest with
        | .error e => .error e
        | .ok (line', rest') => assemble bpl bpc line' rest'
termination_by s.length
decreasing_by
  · simp only [List.length_cons]
    exact Nat.lt_succ_of_le (readFull_ok_len h1)
  · simp only [List.length_cons]
    exact Nat.lt_succ_of_le (readGroups_ok_len h2)

/-- `readV2Line`: if a replay is pending, decrement and copy the cached
line without touching the stream; otherwise read the control byte, set the
pending repeat counter, assemble the line from packets and copy it into
the caller's buffer.  The deferred handler promotes `io.EOF` to
`io.ErrUnexpectedEOF` on every path. -/
def readV2Line (p : Page) (buf : List Nat) (s : ByteStream) :
    Except Err (List Nat × Page × ByteStream) :=
  if 0 < p.lineRep then
    .ok (goCopy buf p.line, { p with lineRep := p.lineRep - 1 }, s)
  else
    match s with
    | [] => .error .unexpectedEOF
    | r :: rest =>
      match assemble p.header.cupsBytesPerLine p.color [] rest with
      | .error .eof => .error .unexpectedEOF
      | .error e => .error e
      | .ok (line, s') =>
        .ok (goCopy buf line, { p with line := line, lineRep := r }, s')

/-- `readRawLine` (versions 1 and 3): `io.ReadFull` of exactly
`bytesPerLine` bytes directly into the front of the caller's buffer; its
error, including a clean `io.EOF`, is returned unchanged. -/
def readRawLine (p : Page) (buf : List Nat) (s : ByteStream) :
    Except Err (List Nat × Page × ByteStream) :=
  match readFull p.header.cupsBytesPerLine s with
  | .error e => .error e
  | .ok (bytes, s') => .ok (bytes ++ buf.drop p.header.cupsBytesPerLine, p, s')

/-- `ReadLine(b)`: buffer must hold a line; a page with no unread lines
yields `io.EOF`; otherwise the lines-read counter advances and the
version-appropriate line decoder runs. -/
def readLine (v : Version) (p : Page) (buf : List Nat) (s : ByteStream) :
    Except Err (List Nat × Page × ByteStream) :=
  if buf.length < p.header.cupsBytesPerLine then .error .bufferTooSmall
  else if UnreadLines p = 0 then .error .eof
  else
    match v with
    | .v1 => readRawLine { p with linesRead := p.linesRead + 1 } buf s
    | .v2 => readV2Line { p with linesRead := p.linesRead + 1 } buf s
    | .v3 => readRawLine { p with linesRead := p.linesRead + 1 } buf s

/-- Iterate `ReadLine` `k` times, feeding each returned buffer to the next
call (the caller reuses one buffer), collecting the returned lines. -/
def readLineIter (v : Version) : Nat → Page → List Nat → ByteStream →
    Except Err (List (List Nat) × Page × ByteStream)
  | 0, p, _, s => .ok ([], p, s)
  | k + 1, p, buf, s =>
    match readLine v p buf s with
    | .error e => .error e
    | .ok (out, p', s') =>
      match readLineIter v k p' out s' with
      | .error e => .error e
      | .ok (outs, p'', s'') => .ok (out :: outs, p'', s'')

/-- The loop body of `discard`: read and throw away `n` lines through the
normal decoder, promoting a clean `io.EOF` to `io.ErrUnexpectedEOF`. -/
def discardGo (v : Version) : Nat → Page → List Nat → ByteStream →
    Except Err (Page × ByteStream)
  | 0, p, _, s => .ok (p, s)
  | n + 1, p, b, s =>
    match readLine v p b s with
    | .error .eof => .error .unexpectedEOF
    | .error e => .error e
    | .ok (b', p', s') => discardGo v n p' b' s'

/-- `discard()`: consume the page's remaining lines through the normal line
decoder into a scratch buffer of one line. -/
def discard (v : Version) (p : Page) (s : ByteStream) : Except Err (Page × ByteStream) :=
  discardGo v (UnreadLines p) p (List.replicate (LineSize p) 0) s

/-- The header-parsing tail of `NextPage`: record the byte count, decode
the version-appropriate header, promote `io.EOF` to
`io.ErrUnexpectedEOF` when any header byte was consumed, then derive the
color-group width and build the fresh page. -/
def NextPageFresh (d : Decoder) (s : ByteStream) :
    Except Err (Page × Decoder × ByteStream) :=
  let r := decodeHeader d.version d.bo { s := s, err := none }
  match r.1 with
  | .error e =>
    if e = .eof ∧ r.2.s.length ≠ s.length then .error .unexpectedEOF
    else .error e
  | .ok h =>
    match bytesPerColor h with
    | .error e => .error e
    | .ok bpc =>
      let p : Page := { header := h, line := [], color := bpc, lineRep := 0, linesRead := 0 }
      .ok (p, { d with curPage := some p }, r.2.s)

/-- `NextPage()`: drain the current page if one exists, then parse the next
header. -/
def NextPage (d : Decoder) (s : ByteStream) : Except Err (Page × Decoder × ByteStream) :=
  match d.curPage with
  | some p =>
    match discard d.version p s with
    | .error e => .error e
    | .ok (_, s') => NextPageFresh d s'
  | none => NextPageFresh d s

/-- The loop body of `ReadAll`: read `n` lines into consecutive
line-sized slices of the buffer, promoting a clean `io.EOF` to
`io.ErrUnexpectedEOF`.  The source addresses slice `i` of the buffer; here
the buffer is split as head slice plus remainder, which visits the same
disjoint slices in the same order. -/
def ReadAllGo (v : Version) : Nat → Page → List Nat → ByteStream →
    Except Err (List Nat × Page × ByteStream)
  | 0, p, buf, s => .ok (buf, p, s)
  | n + 1, p, buf, s =>
    let bpl := p.header.cupsBytesPerLine
    match readLine v p (buf.take bpl) s with
    | .error .eof => .error .unexpectedEOF
    | .error e => .error e
    | .ok (seg, p', s') =>
      match ReadAllGo v n p' (buf.drop bpl) s' with
      | .error e => .error e
      | .ok (tail, p'', s'') => .ok (seg ++ tail, p'', s'')

/-- `ReadAll(b)`: requires the buffer to hold every unread line; a fully
read page yields `io.EOF`; otherwise loop `ReadLine` over consecutive
slices. -/
def ReadAll (v : Version) (p : Page) (buf : List Nat) (s : ByteStream) :
    Except Err (List Nat × Page × ByteStream) :=
  if buf.length < Size p then .error .bufferTooSmall
  else if UnreadLines p = 0 then .error .eof
  else ReadAllGo v (UnreadLines p) p buf s

/-- Parsed pixel colors: `color.Gray` and `color.CMYK` values. -/
inductive Color where
  | gray (y : Nat)
  | cmyk (c m y k : Nat)
  deriving DecidableEq, Repr

/-- `parseColorsBlack`: 1 bit per color unpacks each byte into 8 gray
pixels, most significant bit first (`packet<<i & 128`); 8 bits per color
maps each byte `v` to gray `255 − v`; other depths are unsupported. -/
def parseColorsBlack (bitsPerColor : Nat) (b : List Nat) : Except Err (List Color) :=
  if bitsPerColor = 1 then
    .ok ((b.map (fun packet =>
      (List.range 8).map (fun i =>
        if ((packet <<< i) % 256) &&& 128 = 0 then Color.gray 255 else Color.gray 0))).flatten)
  else if bitsPerColor = 8 then
    .ok (b.map (fun v => Color.gray (255 - v)))
  else .error .unsupported

/-- The grouping loop of `parseColorsCMYK`: every 4 consecutive bytes form
one pixel with channels in order C, M, Y, K. -/
def cmykGroups : List Nat → List Color
  | c :: m :: y :: k :: rest => Color.cmyk c m y k :: cmykGroups rest
  | _ => []

/-- `parseColorsCMYK`: 8 bits per color only; the input length must be a
positive multiple of 4, else `ErrInvalidFormat`. -/
def parseColorsCMYK (bitsPerColor : Nat) (b : List Nat) : Except Err (List Color) :=
  if bitsPerColor ≠ 8 then .error .unsupported
  else if b.length % 4 ≠ 0 ∨ b.length < 4 then .error .invalidFormat
  else .ok (cmykGroups b)

/-- `ParseColors(b)`: chunky color order only; dispatches on the color
space (black or CMYK). -/
def ParseColors (h : Header) (b : List Nat) : Except Err (List Color) :=
  if h.cupsColorOrder ≠ ChunkyPixels then .error .unsupported
  else if h.cupsColorSpace = ColorSpaceBlack then parseColorsBlack h.cupsBitsPerColor b
  else if h.cupsColorSpace = ColorSpaceCMYK then parseColorsCMYK h.cupsBitsPerColor b
  else .error .unsupported

/-- Step-indexed variant of `assemble`, used to state that the loop
terminates within `s.length` iterations: `none` means the iteration budget
ran out. -/
def assembleF : Nat → Nat → Nat → List Nat → ByteStream →
    Option (Except Err (List Nat × ByteStream))
  | 0, _, _, _, _ => none
  | fuel + 1, bpl, bpc, line, s =>
    if bpl ≤ line.length then some (.ok (line, s))
    else
      match s with
      | [] => some (.error .eof)
      | n :: rest =>
        if n ≤ 127 then
          match readFull bpc rest with
          | .error e => some (.error e)
          | .ok (grp, rest') =>
            assembleF fuel bpl bpc (line ++ (List.replicate (n + 1) grp).flatten) rest'
        else
          match readGroups bpc (257 - n) line rest with
          | .error e => some (.error e)
          | .ok (line', rest') => assembleF fuel bpl bpc line' rest'

/-- Step-indexed variant of `readV2Line`. -/
def readV2LineF (fuel : Nat) (p : Page) (buf : List Nat) (s : ByteStream) :
    Option (Except Err (List Nat × Page × ByteStream)) :=
  if 0 < p.lineRep then
    some (.ok (goCopy buf p.line, { p with lineRep := p.lineRep - 1 }, s))
  else
    match s with
    | [] => some (.error .unexpectedEOF)
    | r :: rest =>
      match assembleF fuel p.header.cupsBytesPerLine p.color [] rest with
      | none => none
      | some (.error .eof) => some (.error .unexpectedEOF)
      | some (.error e) => some (.error e)
      | some (.ok (line, s')) =>
        some (.ok (goCopy buf line, { p with line := line, lineRep := r }, s'))

/-- Step-indexed variant of `ReadLine`. -/
def readLineF (fuel : Nat) (v : Version) (p : Page) (buf : List Nat) (s : ByteStream) :
    Option (Except Err (List Nat × Page × ByteStream)) :=
  if buf.length < p.header.cupsBytesPerLine then some (.error .bufferTooSmall)
  else if UnreadLines p = 0 then some (.error .eof)
  else
    match v with
    | .v1 => some (readRawLine { p with linesRead := p.linesRead + 1 } buf s)
    | .v2 => readV2LineF fuel { p with linesRead := p.linesRead + 1 } buf s
    | .v3 => some (readRawLine { p with linesRead := p.linesRead + 1 } buf s)

/-! ## Basic lemmas about the reading primitives -/

theorem readFull_of_le {n : Nat} {s : ByteStream} (h : n ≤ s.length) :
    readFull n s = .ok (s.take n, s.drop n) := by
  unfold readFull
  rw [if_pos h]

theorem readFull_err {n : Nat} {s : ByteStream} {e : Err} (h : readFull n s = .error e) :
    e = .eof ∨ e = .unexpectedEOF := by
  unfold readFull at h
  split_ifs at h
  all_goals first
    | (cases h; exact Or.inl rfl)
    | (cases h; exact Or.inr rfl)
    | cases h

theorem readFull_ok_elim {n : Nat} {s : ByteStream} {a s'}
    (h : readFull n s = .ok (a, s')) : a = s.take n ∧ s' = s.drop n ∧ n ≤ s.length := by
  unfold readFull at h
  split_ifs at h with h1
  all_goals first
    | (cases h; exact ⟨rfl, rfl, h1⟩)
    | cases h

theorem readFull_empty_pos {n : Nat} (h : 0 < n) : readFull n [] = .error .eof := by
  unfold readFull
  simp only [List.length_nil]
  rw [if_neg (by omega)]
  simp

theorem readFull_short {n : Nat} {s : ByteStream} (h0 : 0 < s.length) (h : s.length < n) :
    readFull n s = .error .unexpectedEOF := by
  unfold readFull
  rw [if_neg (by omega), if_neg (by omega)]

theorem goCopy_length {dst src : List Nat} : (goCopy dst src).length = dst.length := by
  unfold goCopy
  simp only [List.length_append, List.length_take, List.length_drop]
  omega

theorem goCopy_of_le {dst src : List Nat} (h : dst.length ≤ src.length) :
    goCopy dst src = src.take dst.length := by
  unfold goCopy
  rw [min_eq_left h, List.drop_length, List.append_nil]

theorem goCopy_of_len_eq {dst src : List Nat} (h : src.length = dst.length) :
    goCopy dst src = src := by
  unfold goCopy
  rw [h, min_self, List.drop_length, List.append_nil, ← h, List.take_length]

theorem readGroups_err {bpc : Nat} :
    ∀ {k : Nat} {line s e}, readGroups bpc k line s = .error e →
      e = .eof ∨ e = .unexpectedEOF := by
  intro k
  induction k with
  | zero => intro line s e h; cases h
  | succ k ih =>
    intro line s e h
    unfold readGroups at h
    cases hr : readFull bpc s with
    | error e2 =>
      rw [hr] at h
      cases h
      exact readFull_err hr
    | ok p =>
      rw [hr] at h
      exact ih h

theorem readGroups_ok_take {bpc : Nat} :
    ∀ {k : Nat} {line : List Nat} {s : ByteStream}, k * bpc ≤ s.length →
      readGroups bpc k line s = .ok (line ++ s.take (k * bpc), s.drop (k * bpc)) := by
  intro k
  induction k with
  | zero => intro line s _; simp [readGroups]
  | succ k ih =>
    intro line s h
    rw [Nat.succ_mul] at h
    have hb : bpc ≤ s.length := by omega
    have hrec : k * bpc ≤ (s.drop bpc).length := by
      simp only [List.length_drop]
      omega
    have hstep : readGroups bpc (k + 1) line s
        = readGroups bpc k (line ++ s.take bpc) (s.drop bpc) := by
      conv_lhs => unfold readGroups; rw [readFull_of_le hb]
    rw [hstep, ih hrec]
    have hsplit : (k + 1) * bpc = bpc + k * bpc := by ring
    rw [hsplit, List.take_add, List.drop_drop, List.append_assoc]

/-! ## Lemmas about the run-length assembly loop -/

theorem assemble_stop {bpl bpc : Nat} {line : List Nat} {s : ByteStream}
    (h : bpl ≤ line.length) : assemble bpl bpc line s = .ok (line, s) := by
  rw [assemble.eq_def]
  simp [h]

theorem assemble_nil {bpl bpc : Nat} {line : List Nat}
    (h : line.length < bpl) : assemble bpl bpc line [] = .error .eof := by
  rw [assemble.eq_def]
  simp [Nat.not_le.mpr h]

theorem assemble_cons_rep {bpl bpc : Nat} {line grp : List Nat} {n : Nat}
    {rest rest' : ByteStream}
    (hlt : line.length < bpl) (hn : n ≤ 127)
    (hr : readFull bpc rest = .ok (grp, rest')) :
    assemble bpl bpc line (n :: rest) =
      assemble bpl bpc (line ++ (List.replicate (n + 1) grp).flatten) rest' := by
  conv_lhs => rw [assemble.eq_def]
  rw [if_neg (Nat.not_le.mpr hlt)]
  simp only [if_pos hn]
  split
  · next e he => rw [hr] at he; cases he
  · next g r hok =>
    rw [hr] at hok
    cases hok
    rfl

theorem assemble_cons_rep_err {bpl bpc : Nat} {line : List Nat} {n : Nat}
    {rest : ByteStream} {e : Err}
    (hlt : line.length < bpl) (hn : n ≤ 127)
    (hr : readFull bpc rest = .error e) :
    assemble bpl bpc line (n :: rest) = .error e := by
  conv_lhs => rw [assemble.eq_def]
  rw [if_neg (Nat.not_le.mpr hlt)]
  simp only [if_pos hn]
  split
  · next e2 he => rw [hr] at he; cases he; rfl
  · next g r hok => rw [hr] at hok; cases hok

theorem assemble_cons_lit {bpl bpc : Nat} {line line' : List Nat} {n : Nat}
    {rest rest' : ByteStream}
    (hlt : line.length < bpl) (hn : ¬ n ≤ 127)
    (hg : readGroups bpc (257 - n) line rest = .ok (line', rest')) :
    assemble bpl bpc line (n :: rest) = assemble bpl bpc line' rest' := by
  conv_lhs => rw [assemble.eq_def]
  rw [if_neg (Nat.not_le.mpr hlt)]
  simp only [if_neg hn]
  split
  · next e he => rw [hg] at he; cases he
  · next l2 r2 hok =>
    rw [hg] at hok
    cases hok
    rfl

theorem assemble_cons_lit_err {bpl bpc : Nat} {line : List Nat} {n : Nat}
    {rest : ByteStream} {e : Err}
    (hlt : line.length < bpl) (hn : ¬ n ≤ 127)
    (hg : readGroups bpc (257 - n) line rest = .error e) :
    assemble bpl bpc line (n :: rest) = .error e := by
  conv_lhs => rw [assemble.eq_def]
  rw [if_neg (Nat.not_le.mpr hlt)]
  simp only [if_neg hn]
  split
  · next e2 he => rw [hg] at he; cases he; rfl
  · next l2 r2 hok => rw [hg] at hok; cases hok

theorem assemble_err {bpl bpc : Nat} {line : List Nat} {s : ByteStream} {e : Err}
    (h : assemble bpl bpc line s = .error e) : e = .eof ∨ e = .unexpectedEOF := by
  induction line, s using assemble.induct bpl bpc with
  | case1 line s hle =>
    rw [assemble_stop hle] at h
    cases h
  | case2 line hlt =>
    rw [assemble_nil (Nat.lt_of_not_le hlt)] at h
    cases h
    exact Or.inl rfl
  | case3 line hlt n rest hn e2 hr =>
    rw [assemble_cons_rep_err (Nat.lt_of_not_le hlt) hn hr] at h
    cases h
    exact readFull_err hr
  | case4 line hlt n rest hn grp rest' hr ih =>
    rw [assemble_cons_rep (Nat.lt_of_not_le hlt) hn hr] at h
    exact ih h
  | case5 line hlt n rest hn e2 hg =>
    rw [assemble_cons_lit_err (Nat.lt_of_not_le hlt) hn hg] at h
    cases h
    exact readGroups_err hg
  | case6 line hlt n rest hn line' rest' hg ih =>
    rw [assemble_cons_lit (Nat.lt_of_not_le hlt) hn hg] at h
    exact ih h

/-! ## Lemmas about the version-2 line decoder and `ReadLine` -/

theorem readV2Line_replay {p : Page} {buf : List Nat} {s : ByteStream}
    (h : 0 < p.lineRep) :
    readV2Line p buf s = .ok (goCopy buf p.line, { p with lineRep := p.lineRep - 1 }, s) := by
  unfold readV2Line
  rw [if_pos h]

theorem readV2Line_fresh {p : Page} {buf : List Nat} {r : Nat} {rest : ByteStream}
    (h : p.lineRep = 0) :
    readV2Line p buf (r :: rest) =
      match assemble p.header.cupsBytesPerLine p.color [] rest with
      | .error .eof => .error .unexpectedEOF
      | .error e => .error e
      | .ok (line, s') =>
        .ok (goCopy buf line, { p with line := line, lineRep := r }, s') := by
  unfold readV2Line
  rw [if_neg (by omega)]

theorem readV2Line_nil {p : Page} {buf : List Nat} (h : p.lineRep = 0) :
    readV2Line p buf [] = .error .unexpectedEOF := by
  unfold readV2Line
  rw [if_neg (by omega)]

theorem readV2Line_fresh_ok {p : Page} {buf line : List Nat} {r : Nat}
    {rest s' : ByteStream} (hrep : p.lineRep = 0)
    (ha : assemble p.header.cupsBytesPerLine p.color [] rest = .ok (line, s')) :
    readV2Line p buf (r :: rest) =
      .ok (goCopy buf line, { p with line := line, lineRep := r }, s') := by
  rw [readV2Line_fresh hrep]
  simp only [ha]

theorem readV2Line_fresh_err {p : Page} {buf : List Nat} {r : Nat}
    {rest : ByteStream} {e : Err} (hrep : p.lineRep = 0)
    (ha : assemble p.header.cupsBytesPerLine p.color [] rest = .error e) :
    readV2Line p buf (r :: rest) = .error .unexpectedEOF := by
  rw [readV2Line_fresh hrep]
  rcases assemble_err ha with h2 | h2 <;> subst h2 <;> simp only [ha]

theorem readRawLine_ok {p : Page} {buf bytes : List Nat} {s s' : ByteStream}
    (hr : readFull p.header.cupsBytesPerLine s = .ok (bytes, s')) :
    readRawLine p buf s = .ok (bytes ++ buf.drop p.header.cupsBytesPerLine, p, s') := by
  unfold readRawLine
  simp only [hr]

theorem readRawLine_err {p : Page} {buf : List Nat} {s : ByteStream} {e : Err}
    (hr : readFull p.header.cupsBytesPerLine s = .error e) :
    readRawLine p buf s = .error e := by
  unfold readRawLine
  simp only [hr]

theorem readV2Line_err {p : Page} {buf : List Nat} {s : ByteStream} {e : Err}
    (h : readV2Line p buf s = .error e) : e = .unexpectedEOF := by
  by_cases hrep : 0 < p.lineRep
  · rw [readV2Line_replay hrep] at h
    cases h
  · have hrep0 : p.lineRep = 0 := by omega
    cases s with
    | nil =>
      rw [readV2Line_nil hrep0] at h
      cases h
      rfl
    | cons r rest =>
      cases ha : assemble p.header.cupsBytesPerLine p.color [] rest with
      | error e2 =>
        rw [readV2Line_fresh_err hrep0 ha] at h
        cases h
        rfl
      | ok pr =>
        rw [readV2Line_fresh_ok hrep0 (by rw [ha])] at h
        cases h

/-- When both guards pass, a version-1 `ReadLine` advances the counter and
runs the raw decoder. -/
theorem readLine_v1_eq {p : Page} {buf : List Nat} {s : ByteStream}
    (hbuf : p.header.cupsBytesPerLine ≤ buf.length) (hu : UnreadLines p ≠ 0) :
    readLine .v1 p buf s = readRawLine { p with linesRead := p.linesRead + 1 } buf s := by
  unfold readLine
  rw [if_neg (by omega), if_neg hu]

/-- When both guards pass, a version-2 `ReadLine` advances the counter and
runs the run-length decoder. -/
theorem readLine_v2_eq {p : Page} {buf : List Nat} {s : ByteStream}
    (hbuf : p.header.cupsBytesPerLine ≤ buf.length) (hu : UnreadLines p ≠ 0) :
    readLine .v2 p buf s = readV2Line { p with linesRead := p.linesRead + 1 } buf s := by
  unfold readLine
  rw [if_neg (by omega), if_neg hu]

/-- When both guards pass, a version-3 `ReadLine` advances the counter and
runs the raw decoder. -/
theorem readLine_v3_eq {p : Page} {buf : List Nat} {s : ByteStream}
    (hbuf : p.header.cupsBytesPerLine ≤ buf.length) (hu : UnreadLines p ≠ 0) :
    readLine .v3 p buf s = readRawLine { p with linesRead := p.linesRead + 1 } buf s := by
  unfold readLine
  rw [if_neg (by omega), if_neg hu]

/-- The possible errors of `readRawLine`, classified. -/
theorem readRawLine_err_cases {p : Page} {buf : List Nat} {s : ByteStream} {e : Err}
    (h : readRawLine p buf s = .error e) : e = .eof ∨ e = .unexpectedEOF := by
  cases hr : readFull p.header.cupsBytesPerLine s with
  | error e2 =>
    rw [readRawLine_err hr] at h
    cases h
    exact readFull_err hr
  | ok pr =>
    obtain ⟨bts, st2⟩ := pr
    rw [readRawLine_ok hr] at h
    cases h

theorem readLine_err {v : Version} {p : Page} {buf : List Nat} {s : ByteStream} {e : Err}
    (hbuf : p.header.cupsBytesPerLine ≤ buf.length)
    (h : readLine v p buf s = .error e) : e = .eof ∨ e = .unexpectedEOF := by
  by_cases hu : UnreadLines p = 0
  · unfold readLine at h
    rw [if_neg (by omega), if_pos hu] at h
    cases h
    exact Or.inl rfl
  · cases v with
    | v1 =>
      rw [readLine_v1_eq hbuf hu] at h
      exact readRawLine_err_cases h
    | v2 =>
      rw [readLine_v2_eq hbuf hu] at h
      exact Or.inr (readV2Line_err h)
    | v3 =>
      rw [readLine_v3_eq hbuf hu] at h
      exact readRawLine_err_cases h

theorem readLine_guards {v : Version} {p : Page} {buf out : List Nat}
    {s s' : ByteStream} {p' : Page}
    (h : readLine v p buf s = .ok (out, p', s')) :
    p.header.cupsBytesPerLine ≤ buf.length ∧ UnreadLines p ≠ 0 := by
  unfold readLine at h
  split_ifs at h with h1 h2
  exact ⟨by omega, h2⟩

theorem readRawLine_ok_shape {q : Page} {buf out : List Nat} {s s' : ByteStream} {p' : Page}
    (h : readRawLine q buf s = .ok (out, p', s'))
    (hbuf : q.header.cupsBytesPerLine ≤ buf.length) : p' = q ∧ out.length = buf.length := by
  cases hr : readFull q.header.cupsBytesPerLine s with
  | error e2 =>
    rw [readRawLine_err hr] at h
    cases h
  | ok pr =>
    obtain ⟨bts, st2⟩ := pr
    rw [readRawLine_ok hr] at h
    cases h
    obtain ⟨ha, -, hle⟩ := readFull_ok_elim hr
    refine ⟨rfl, ?_⟩
    rw [ha]
    simp only [List.length_append, List.length_take, List.length_drop]
    omega

theorem readV2Line_ok_shape {q : Page} {buf out : List Nat} {s s' : ByteStream} {p' : Page}
    (h : readV2Line q buf s = .ok (out, p', s')) :
    p'.header = q.header ∧ p'.linesRead = q.linesRead ∧ p'.color = q.color ∧
      out.length = buf.length := by
  by_cases hrep : 0 < q.lineRep
  · rw [readV2Line_replay hrep] at h
    cases h
    exact ⟨rfl, rfl, rfl, goCopy_length⟩
  · have hrep0 : q.lineRep = 0 := by omega
    cases s with
    | nil =>
      rw [readV2Line_nil hrep0] at h
      cases h
    | cons r rest =>
      cases ha : assemble q.header.cupsBytesPerLine q.color [] rest with
      | error e2 =>
        rw [readV2Line_fresh_err hrep0 ha] at h
        cases h
      | ok pr =>
        obtain ⟨ln, st2⟩ := pr
        rw [readV2Line_fresh_ok hrep0 ha] at h
        cases h
        exact ⟨rfl, rfl, rfl, goCopy_length⟩

theorem readLine_ok_state {v : Version} {p : Page} {buf out : List Nat}
    {s s' : ByteStream} {p' : Page}
    (h : readLine v p buf s = .ok (out, p', s')) :
    p'.header = p.header ∧ p'.linesRead = p.linesRead + 1 ∧ p'.color = p.color ∧
      out.length = buf.length := by
  obtain ⟨hbuf, hu⟩ := readLine_guards h
  cases v with
  | v1 =>
    rw [readLine_v1_eq hbuf hu] at h
    obtain ⟨hp, hlen⟩ := readRawLine_ok_shape h hbuf
    subst hp
    exact ⟨rfl, rfl, rfl, hlen⟩
  | v2 =>
    rw [readLine_v2_eq hbuf hu] at h
    obtain ⟨h1, h2, h3, h4⟩ := readV2Line_ok_shape h
    exact ⟨h1, h2, h3, h4⟩
  | v3 =>
    rw [readLine_v3_eq hbuf hu] at h
    obtain ⟨hp, hlen⟩ := readRawLine_ok_shape h hbuf
    subst hp
    exact ⟨rfl, rfl, rfl, hlen⟩

theorem readLine_ok_buflen {v : Version} {p : Page} {buf out : List Nat}
    {s s' : ByteStream} {p' : Page}
    (h : readLine v p buf s = .ok (out, p', s')) : out.length = buf.length :=
  (readLine_ok_state h).2.2.2

/-- A single replaying `ReadLine` call: guards pass, the counter advances,
and `readV2Line` serves the cached line without touching the stream. -/
theorem readLine_v2_replay {p : Page} {buf : List Nat} {s : ByteStream}
    (hbuf : p.header.cupsBytesPerLine ≤ buf.length)
    (hu : UnreadLines p ≠ 0) (hrep : 0 < p.lineRep) :
    readLine .v2 p buf s =
      .ok (goCopy buf p.line,
        { p with linesRead := p.linesRead + 1, lineRep := p.lineRep - 1 }, s) := by
  rw [readLine_v2_eq hbuf hu]
  exact readV2Line_replay hrep

theorem readLineIter_replay {k : Nat} :
    ∀ {p : Page} {buf : List Nat} {s : ByteStream},
      k ≤ p.lineRep → k ≤ UnreadLines p →
      p.header.cupsBytesPerLine ≤ buf.length → buf.length = p.line.length →
      readLineIter .v2 k p buf s =
        .ok (List.replicate k p.line,
          { p with lineRep := p.lineRep - k, linesRead := p.linesRead + k }, s) := by
  induction k with
  | zero =>
    intro p buf s _ _ _ _
    simp [readLineIter]
  | succ k ih =>
    intro p buf s hk hu hbuf hlen
    have hrep : 0 < p.lineRep := by omega
    have hstep := @readLine_v2_replay p buf s hbuf (by unfold UnreadLines at hu ⊢; omega) hrep
    have hcopy : goCopy buf p.line = p.line := goCopy_of_len_eq hlen.symm
    rw [hcopy] at hstep
    have hrec := @ih { p with linesRead := p.linesRead + 1, lineRep := p.lineRep - 1 }
      p.line s (by simp; omega) (by simp [UnreadLines]; unfold UnreadLines at hu; omega)
      (hlen ▸ hbuf) rfl
    have h1 : p.lineRep - 1 - k = p.lineRep - (k + 1) := by omega
    have h2 : p.linesRead + 1 + k = p.linesRead + (k + 1) := by omega
    unfold readLineIter
    simp only [hstep, hrec, h1, h2, List.replicate_succ]

/-! ## Lemmas about `discard` and `ReadAll` -/

theorem discardGo_err {v : Version} :
    ∀ {k : Nat} {p : Page} {b : List Nat} {s : ByteStream} {e : Err},
      p.header.cupsBytesPerLine ≤ b.length →
      discardGo v k p b s = .error e → e = .unexpectedEOF := by
  intro k
  induction k with
  | zero =>
    intro p b s e _ h
    cases h
  | succ k ih =>
    intro p b s e hb h
    unfold discardGo at h
    cases hr : readLine v p b s with
    | error e2 =>
      rcases readLine_err hb hr with h2 | h2 <;> subst h2 <;> simp only [hr] at h <;>
        (cases h; rfl)
    | ok tr =>
      obtain ⟨b', p', s'⟩ := tr
      simp only [hr] at h
      obtain ⟨hh, -, -, hlen⟩ := readLine_ok_state hr
      exact ih (by rw [hh, hlen]; exact hb) h

theorem discard_err {v : Version} {p : Page} {s : ByteStream} {e : Err}
    (h : discard v p s = .error e) : e = .unexpectedEOF := by
  unfold discard at h
  exact discardGo_err (by simp [LineSize]) h

theorem ReadAllGo_ne_bts {v : Version} :
    ∀ {u : Nat} {p : Page} {buf : List Nat} {s : ByteStream},
      p.header.cupsBytesPerLine * u ≤ buf.length →
      ReadAllGo v u p buf s ≠ .error .bufferTooSmall := by
  intro u
  induction u with
  | zero =>
    intro p buf s _ h
    cases h
  | succ u ih =>
    intro p buf s hlen h
    rw [Nat.mul_succ] at hlen
    have hb : p.header.cupsBytesPerLine ≤ buf.length := by omega
    have htk : (buf.take p.header.cupsBytesPerLine).length = p.header.cupsBytesPerLine := by
      simp only [List.length_take]
      omega
    unfold ReadAllGo at h
    cases hr : readLine v p (buf.take p.header.cupsBytesPerLine) s with
    | error e2 =>
      rcases readLine_err (by omega) hr with h2 | h2 <;> subst h2 <;>
        simp only [hr] at h <;> cases h
    | ok tr =>
      obtain ⟨seg, p', s'⟩ := tr
      simp only [hr] at h
      obtain ⟨hh, -, -, -⟩ := readLine_ok_state hr
      have hrec : p'.header.cupsBytesPerLine * u ≤ (buf.drop p.header.cupsBytesPerLine).length := by
        rw [hh]
        simp only [List.length_drop]
        omega
      cases hrest : ReadAllGo v u p' (buf.drop p.header.cupsBytesPerLine) s' with
      | error e3 =>
        simp only [hrest] at h
        cases h
        exact ih hrec hrest
      | ok tr2 =>
        obtain ⟨tl, p2, s2⟩ := tr2
        simp only [hrest] at h
        cases h

/-- `ReadAll` fails with `ErrBufferTooSmall` exactly when the buffer is
shorter than a line times the number of unread lines. -/
theorem ReadAll_bts_iff {v : Version} {p : Page} {buf : List Nat} {s : ByteStream} :
    ReadAll v p buf s = .error .bufferTooSmall ↔
      buf.length < p.header.cupsBytesPerLine * UnreadLines p := by
  have hSz : Size p = p.header.cupsBytesPerLine * UnreadLines p := rfl
  constructor
  · intro h
    by_contra hge
    unfold ReadAll at h
    rw [if_neg (by rw [hSz]; omega)] at h
    split_ifs at h with hu
    · cases h
    · exact ReadAllGo_ne_bts (by omega) h
  · intro hlt
    unfold ReadAll
    rw [if_pos (by rw [hSz]; omega)]

/-- Raw-mode `ReadAll` content: with enough stream bytes, the unread lines
are exactly the next `bytesPerLine × u` stream bytes, copied in order. -/
theorem ReadAllGo_raw {v : Version} (hv : v = .v1 ∨ v = .v3) :
    ∀ {u : Nat} {p : Page} {buf : List Nat} {s : ByteStream},
      buf.length = p.header.cupsBytesPerLine * u → u ≤ UnreadLines p →
      p.header.cupsBytesPerLine * u ≤ s.length →
      ReadAllGo v u p buf s =
        .ok (s.take (p.header.cupsBytesPerLine * u),
          { p with linesRead := p.linesRead + u },
          s.drop (p.header.cupsBytesPerLine * u)) := by
  intro u
  induction u with
  | zero =>
    intro p buf s hlen hu hs
    have hnil : buf = [] := List.eq_nil_of_length_eq_zero (by omega)
    subst hnil
    simp [ReadAllGo]
  | succ u ih =>
    intro p buf s hlen hu hs
    rw [Nat.mul_succ] at hlen hs
    have hb : p.header.cupsBytesPerLine ≤ buf.length := by omega
    have hbs : p.header.cupsBytesPerLine ≤ s.length := by omega
    have hu0 : UnreadLines p ≠ 0 := by omega
    have htk : (buf.take p.header.cupsBytesPerLine).length = p.header.cupsBytesPerLine := by
      simp only [List.length_take]
      omega
    have hr : readFull p.header.cupsBytesPerLine s
        = .ok (s.take p.header.cupsBytesPerLine, s.drop p.header.cupsBytesPerLine) :=
      readFull_of_le hbs
    have hline : readLine v p (buf.take p.header.cupsBytesPerLine) s =
        .ok (s.take p.header.cupsBytesPerLine,
          { p with linesRead := p.linesRead + 1 }, s.drop p.header.cupsBytesPerLine) := by
      rcases hv with h2 | h2 <;> subst h2
      · rw [readLine_v1_eq (by omega) hu0,
          @readRawLine_ok { p with linesRead := p.linesRead + 1 }
            (buf.take p.header.cupsBytesPerLine) (s.take p.header.cupsBytesPerLine) s
            (s.drop p.header.cupsBytesPerLine) hr]
        simp [List.drop_take]
      · rw [readLine_v3_eq (by omega) hu0,
          @readRawLine_ok { p with linesRead := p.linesRead + 1 }
            (buf.take p.header.cupsBytesPerLine) (s.take p.header.cupsBytesPerLine) s
            (s.drop p.header.cupsBytesPerLine) hr]
        simp [List.drop_take]
    have hrec := @ih { p with linesRead := p.linesRead + 1 }
      (buf.drop p.header.cupsBytesPerLine) (s.drop p.header.cupsBytesPerLine)
      (by simp only [List.length_drop]; omega)
      (by unfold UnreadLines at hu ⊢; simp only at hu ⊢; omega)
      (by simp only [List.length_drop]; omega)
    unfold ReadAllGo
    simp only [hline, hrec]
    have hmul : p.header.cupsBytesPerLine * (u + 1)
        = p.header.cupsBytesPerLine + p.header.cupsBytesPerLine * u := by ring
    rw [hmul, List.take_add, List.drop_drop]
    have h2 : p.linesRead + 1 + u = p.linesRead + (u + 1) := by omega
    simp [h2]

/-! ## Lemmas about header parsing and `NextPage` -/

/-- The error states a header parse can leave behind: none, or one of the
two `io` end-of-input errors. -/
def EofErrs (o : Option Err) : Prop :=
  o = none ∨ o = some Err.eof ∨ o = some Err.unexpectedEOF

theorem readCString_errst {s : ByteStream} {e : Err} :
    readCString { s := s, err := some e } = ([], { s := s, err := some e }) := rfl

theorem readCString_long {s : ByteStream} (h : 64 ≤ s.length) :
    readCString { s := s, err := none } =
      (cstring (s.take 64 ++ List.replicate (64 - s.length) 0),
        { s := s.drop 64, err := none }) := by
  unfold readCString
  dsimp only
  rw [if_pos h]

theorem readCString_snd_shrink (st : DecSt) :
    ((readCString st).2).s.length ≤ st.s.length := by
  unfold readCString
  cases st.err with
  | some e => exact le_refl _
  | none =>
    dsimp only
    split_ifs <;> simp

theorem readCString_snd_lt {s : ByteStream} (h : s ≠ []) :
    ((readCString { s := s, err := none }).2).s.length < s.length := by
  have h0 : 0 < s.length := List.length_pos.mpr h
  unfold readCString
  dsimp only
  split_ifs with h1 h2 <;> simp only [List.length_drop, List.length_nil] <;> omega

theorem readCString_errOK {st : DecSt} (h : EofErrs st.err) :
    EofErrs ((readCString st).2).err := by
  unfold readCString
  cases st.err with
  | some e => exact h
  | none =>
    dsimp only
    split_ifs <;> simp [EofErrs]

theorem readCString_err_none {st : DecSt} (h : ((readCString st).2).err = none) :
    st.err = none ∧ 64 ≤ st.s.length ∧
      (readCString st).2 = { s := st.s.drop 64, err := none } := by
  rcases st with ⟨s, err⟩
  cases err with
  | some e => rw [readCString_errst] at h ⊢; cases h
  | none =>
    unfold readCString at h ⊢
    dsimp only at h ⊢
    split_ifs at h ⊢ with h1 h2
    all_goals first | exact ⟨rfl, h1, rfl⟩ | cases h

theorem readCStrings_succ_snd (n : Nat) (st : DecSt) :
    (readCStrings (n + 1) st).2 = (readCStrings n (readCString st).2).2 := rfl

theorem readCStrings_snd_shrink (n : Nat) :
    ∀ st : DecSt, ((readCStrings n st).2).s.length ≤ st.s.length := by
  induction n with
  | zero => intro st; exact le_refl _
  | succ n ih =>
    intro st
    rw [readCStrings_succ_snd]
    exact le_trans (ih (readCString st).2) (readCString_snd_shrink st)

theorem readCStrings_errOK (n : Nat) :
    ∀ {st : DecSt}, EofErrs st.err → EofErrs ((readCStrings n st).2).err := by
  induction n with
  | zero => intro st h; exact h
  | succ n ih =>
    intro st h
    rw [readCStrings_succ_snd]
    exact ih (readCString_errOK h)

theorem readCStrings_ok (n : Nat) :
    ∀ {s : ByteStream}, 64 * n ≤ s.length →
      (readCStrings n { s := s, err := none }).2 = { s := s.drop (64 * n), err := none } := by
  induction n with
  | zero =>
    intro s _
    simp [readCStrings]
  | succ n ih =>
    intro s h
    rw [Nat.mul_succ] at h
    have h64 : 64 ≤ s.length := by omega
    rw [readCStrings_succ_snd, readCString_long h64]
    have hrec := ih (show 64 * n ≤ (s.drop 64).length by simp only [List.length_drop]; omega)
    rw [hrec, List.drop_drop]
    have h9 : 64 + 64 * n = 64 * (n + 1) := by ring
    rw [h9]

theorem readCStrings_err_none (n : Nat) :
    ∀ {st : DecSt}, ((readCStrings n st).2).err = none →
      st.err = none ∧ 64 * n ≤ st.s.length ∧
        (readCStrings n st).2 = { s := st.s.drop (64 * n), err := none } := by
  induction n with
  | zero =>
    intro st h
    refine ⟨h, by omega, ?_⟩
    simp [readCStrings]
    cases st with
    | mk s err => cases h; rfl
  | succ n ih =>
    intro st h
    rw [readCStrings_succ_snd] at h
    obtain ⟨h1, h2, h3⟩ := ih h
    obtain ⟨h4, h5, h6⟩ := readCString_err_none h1
    refine ⟨h4, ?_, ?_⟩
    · rw [h6] at h2
      simp only [List.length_drop] at h2
      rw [Nat.mul_succ]
      omega
    · rw [readCStrings_succ_snd, h3, h6]
      simp only [List.drop_drop]
      have h9 : 64 + 64 * n = 64 * (n + 1) := by ring
      rw [h9]

theorem decodeV1Tail_err {bo : ByteOrder} {strs : List (List Nat)} {st4 st' : DecSt}
    {e : Err} (hok : EofErrs st4.err)
    (h : decodeV1Tail bo strs st4 = (.error e, st')) :
    e = .eof ∨ e = .unexpectedEOF := by
  rcases st4 with ⟨s4, e4⟩
  unfold decodeV1Tail at h
  dsimp only at h
  split_ifs at h with h1 h2
  · rcases hok with h3 | h3 | h3 <;> simp only at h3 <;> subst h3 <;> simp only at h
    · simp at h
    · injection h with he hst
      cases he
      exact Or.inl rfl
    · injection h with he hst
      cases he
      exact Or.inr rfl
  · injection h with he hst
    cases he
    exact Or.inl rfl
  · injection h with he hst
    cases he
    exact Or.inr rfl

theorem decodeV1Tail_ok {bo : ByteOrder} {strs : List (List Nat)} {st4 : DecSt}
    (hnone : st4.err = none) (hlen : 164 ≤ st4.s.length) :
    ∃ hh, decodeV1Tail bo strs st4 = (.ok hh, { s := st4.s.drop 164, err := none }) := by
  rcases st4 with ⟨s4, e4⟩
  simp only at hnone hlen
  subst hnone
  unfold decodeV1Tail
  dsimp only
  rw [if_pos hlen]
  exact ⟨_, rfl⟩

theorem decodeV1Tail_ok_len {bo : ByteOrder} {strs : List (List Nat)} {st4 st' : DecSt}
    {hh : Header} (h : decodeV1Tail bo strs st4 = (.ok hh, st')) :
    st4.err = none ∧ 164 ≤ st4.s.length ∧ st' = { s := st4.s.drop 164, err := none } := by
  rcases st4 with ⟨s4, e4⟩
  unfold decodeV1Tail at h
  dsimp only at h
  split_ifs at h with h1 h2
  · cases e4 with
    | some e =>
      simp only at h
      simp at h
    | none =>
      simp only at h
      injection h with he hst
      exact ⟨rfl, h1, hst.symm⟩
  · simp at h
  · simp at h

theorem decodeV1Tail_snd_shrink (bo : ByteOrder) (strs : List (List Nat)) (st4 : DecSt) :
    ((decodeV1Tail bo strs st4).2).s.length ≤ st4.s.length := by
  rcases st4 with ⟨s4, e4⟩
  unfold decodeV1Tail
  dsimp only
  split_ifs with h1 h2
  · cases e4 <;> simp
  · simp
  · simp

theorem decodeV2Tail_err {bo : ByteOrder} {hh : Header} {st1 st' : DecSt}
    {e : Err} (hok : EofErrs st1.err)
    (h : decodeV2Tail bo hh st1 = (.error e, st')) :
    e = .eof ∨ e = .unexpectedEOF := by
  rcases st1 with ⟨s1, e1⟩
  unfold decodeV2Tail at h
  dsimp only at h
  split_ifs at h with h1 h2
  · have hrs : EofErrs ((readCStrings 19 { s := s1.drop 160, err := e1 }).2).err :=
      readCStrings_errOK 19 hok
    rcases hrs with h3 | h3 | h3 <;> rw [h3] at h <;> simp only at h
    · simp at h
    · injection h with he hst
      cases he
      exact Or.inl rfl
    · injection h with he hst
      cases he
      exact Or.inr rfl
  · injection h with he hst
    cases he
    exact Or.inl rfl
  · injection h with he hst
    cases he
    exact Or.inr rfl

theorem decodeV2Tail_ok {bo : ByteOrder} {hh : Header} {st1 : DecSt}
    (hnone : st1.err = none) (hlen : 1376 ≤ st1.s.length) :
    ∃ h2, decodeV2Tail bo hh st1 = (.ok h2, { s := st1.s.drop 1376, err := none }) := by
  rcases st1 with ⟨s1, e1⟩
  simp only at hnone
  subst hnone
  have hlen2 : 1376 ≤ s1.length := hlen
  unfold decodeV2Tail
  dsimp only
  rw [if_pos (by omega)]
  have hrs := readCStrings_ok 19 (show 64 * 19 ≤ (s1.drop 160).length by
    simp only [List.length_drop]; omega)
  rw [hrs]
  have hd : (s1.drop 160).drop (64 * 19) = s1.drop 1376 := by
    rw [List.drop_drop]
  rw [hd]
  exact ⟨_, rfl⟩

theorem decodeV2Tail_ok_len {bo : ByteOrder} {hh h2 : Header} {st1 st' : DecSt}
    (h : decodeV2Tail bo hh st1 = (.ok h2, st')) :
    st1.err = none ∧ 1376 ≤ st1.s.length ∧ st' = { s := st1.s.drop 1376, err := none } := by
  rcases st1 with ⟨s1, e1⟩
  unfold decodeV2Tail at h
  dsimp only at h
  split_ifs at h with h1 hz
  · cases hrs : (readCStrings 19 { s := s1.drop 160, err := e1 }).2.err with
    | some e =>
      rw [hrs] at h
      simp only at h
      simp at h
    | none =>
      obtain ⟨h3, h4, h5⟩ := readCStrings_err_none 19 hrs
      simp only at h3 h4
      rw [hrs] at h
      simp only at h
      injection h with he hst
      subst h3
      dsimp only
      refine ⟨rfl, ?_, ?_⟩
      · simp only [List.length_drop] at h4
        omega
      · rw [← hst, h5]
        dsimp only
        simp only [List.drop_drop]
  · simp at h
  · simp at h

theorem decodeV2Tail_snd_shrink (bo : ByteOrder) (hh : Header) (st1 : DecSt) :
    ((decodeV2Tail bo hh st1).2).s.length ≤ st1.s.length := by
  rcases st1 with ⟨s1, e1⟩
  have hkey : ((readCStrings 19 { s := s1.drop 160, err := e1 }).2).s.length ≤ s1.length :=
    calc ((readCStrings 19 { s := s1.drop 160, err := e1 }).2).s.length
        ≤ (s1.drop 160).length := readCStrings_snd_shrink 19 _
      _ ≤ s1.length := by simp only [List.length_drop]; omega
  unfold decodeV2Tail
  dsimp only
  split_ifs with h1 h2
  · cases hrs : (readCStrings 19 { s := s1.drop 160, err := e1 }).2.err with
    | some e =>
      simp only
      exact hkey
    | none =>
      simp only
      exact hkey
  · simp
  · simp

/-! ### The assembled header decoders -/

theorem decodeV1Header_ok_of_len {bo : ByteOrder} {s : ByteStream}
    (h : 420 ≤ s.length) :
    ∃ hh, decodeV1Header bo { s := s, err := none }
      = (.ok hh, { s := s.drop 420, err := none }) := by
  unfold decodeV1Header
  rw [readCStrings_ok 4 (by omega)]
  obtain ⟨hh, heq⟩ := @decodeV1Tail_ok bo (readCStrings 4 { s := s, err := none }).1
    { s := s.drop (64 * 4), err := none } rfl
    (by dsimp only; simp only [List.length_drop]; omega)
  refine ⟨hh, ?_⟩
  rw [heq]
  dsimp only
  simp only [List.drop_drop]

theorem decodeV1Header_ok_len {bo : ByteOrder} {s : ByteStream} {hh : Header} {st' : DecSt}
    (h : decodeV1Header bo { s := s, err := none } = (.ok hh, st')) :
    420 ≤ s.length ∧ st' = { s := s.drop 420, err := none } := by
  unfold decodeV1Header at h
  obtain ⟨h1, h2, h3⟩ := decodeV1Tail_ok_len h
  obtain ⟨h4, h5, h6⟩ := readCStrings_err_none 4 h1
  simp only at h5 h6
  rw [h6] at h2 h3
  simp only [List.length_drop] at h2
  refine ⟨by omega, ?_⟩
  rw [h3]
  dsimp only
  simp only [List.drop_drop]

theorem decodeV1Header_err {bo : ByteOrder} {s : ByteStream} {e : Err} {st' : DecSt}
    (h : decodeV1Header bo { s := s, err := none } = (.error e, st')) :
    e = .eof ∨ e = .unexpectedEOF := by
  unfold decodeV1Header at h
  exact decodeV1Tail_err (readCStrings_errOK 4 (Or.inl rfl)) h

theorem decodeV1Header_snd_lt {bo : ByteOrder} {s : ByteStream} (h : s ≠ []) :
    ((decodeV1Header bo { s := s, err := none }).2).s.length < s.length := by
  unfold decodeV1Header
  calc ((decodeV1Tail bo (readCStrings 4 { s := s, err := none }).1
          (readCStrings 4 { s := s, err := none }).2).2).s.length
      ≤ ((readCStrings 4 { s := s, err := none }).2).s.length :=
        decodeV1Tail_snd_shrink _ _ _
    _ = ((readCStrings 3 (readCString { s := s, err := none }).2).2).s.length := by
        rw [readCStrings_succ_snd]
    _ ≤ ((readCString { s := s, err := none }).2).s.length :=
        readCStrings_snd_shrink 3 _
    _ < s.length := readCString_snd_lt h

theorem decodeV2Header_ok_of_len {bo : ByteOrder} {s : ByteStream}
    (h : 1796 ≤ s.length) :
    ∃ hh, decodeV2Header bo { s := s, err := none }
      = (.ok hh, { s := s.drop 1796, err := none }) := by
  obtain ⟨h1, heq1⟩ := @decodeV1Header_ok_of_len bo s (by omega)
  unfold decodeV2Header
  rw [heq1]
  obtain ⟨h2, heq2⟩ := @decodeV2Tail_ok bo h1 { s := s.drop 420, err := none } rfl
    (by dsimp only; simp only [List.length_drop]; omega)
  try dsimp only at heq2
  dsimp only
  refine ⟨h2, ?_⟩
  rw [heq2]
  simp only [List.drop_drop]

theorem decodeV2Header_ok_len {bo : ByteOrder} {s : ByteStream} {hh : Header} {st' : DecSt}
    (h : decodeV2Header bo { s := s, err := none } = (.ok hh, st')) :
    1796 ≤ s.length ∧ st' = { s := s.drop 1796, err := none } := by
  unfold decodeV2Header at h
  cases h1 : decodeV1Header bo { s := s, err := none } with
  | mk res st1 =>
    cases res with
    | error e =>
      rw [h1] at h
      simp at h
    | ok hv1 =>
      rw [h1] at h
      simp only at h
      obtain ⟨hl1, hst1⟩ := decodeV1Header_ok_len h1
      subst hst1
      obtain ⟨h2, h3, h4⟩ := decodeV2Tail_ok_len h
      have h3b : 1376 ≤ (s.drop 420).length := h3
      simp only [List.length_drop] at h3b
      refine ⟨by omega, ?_⟩
      rw [h4]
      try dsimp only
      simp only [List.drop_drop]

theorem decodeV2Header_err {bo : ByteOrder} {s : ByteStream} {e : Err} {st' : DecSt}
    (h : decodeV2Header bo { s := s, err := none } = (.error e, st')) :
    e = .eof ∨ e = .unexpectedEOF := by
  unfold decodeV2Header at h
  cases h1 : decodeV1Header bo { s := s, err := none } with
  | mk res st1 =>
    cases res with
    | error e2 =>
      rw [h1] at h
      simp only at h
      injection h with he hst
      injection he with he3
      subst he3
      exact decodeV1Header_err h1
    | ok hv1 =>
      rw [h1] at h
      simp only at h
      obtain ⟨hl1, hst1⟩ := decodeV1Header_ok_len h1
      subst hst1
      exact decodeV2Tail_err (Or.inl rfl) h

theorem decodeV2Header_snd_lt {bo : ByteOrder} {s : ByteStream} (h : s ≠ []) :
    ((decodeV2Header bo { s := s, err := none }).2).s.length < s.length := by
  unfold decodeV2Header
  cases h1 : decodeV1Header bo { s := s, err := none } with
  | mk res st1 =>
    cases res with
    | error e2 =>
      simp only
      have hlt := @decodeV1Header_snd_lt bo s h
      rw [h1] at hlt
      exact hlt
    | ok hv1 =>
      simp only
      have hle := decodeV2Tail_snd_shrink bo hv1 st1
      have hlt := @decodeV1Header_snd_lt bo s h
      rw [h1] at hlt
      exact lt_of_le_of_lt hle hlt

theorem decodeHeader_ok_of_len {v : Version} {bo : ByteOrder} {s : ByteStream}
    (h : headerLen v ≤ s.length) :
    ∃ hh, decodeHeader v bo { s := s, err := none }
      = (.ok hh, { s := s.drop (headerLen v), err := none }) := by
  cases v with
  | v1 => exact decodeV1Header_ok_of_len h
  | v2 => exact decodeV2Header_ok_of_len h
  | v3 => exact decodeV2Header_ok_of_len h

theorem decodeHeader_ok_len {v : Version} {bo : ByteOrder} {s : ByteStream}
    {hh : Header} {st' : DecSt}
    (h : decodeHeader v bo { s := s, err := none } = (.ok hh, st')) :
    headerLen v ≤ s.length ∧ st' = { s := s.drop (headerLen v), err := none } := by
  cases v with
  | v1 => exact decodeV1Header_ok_len h
  | v2 => exact decodeV2Header_ok_len h
  | v3 => exact decodeV2Header_ok_len h

theorem decodeHeader_err {v : Version} {bo : ByteOrder} {s : ByteStream}
    {e : Err} {st' : DecSt}
    (h : decodeHeader v bo { s := s, err := none } = (.error e, st')) :
    e = .eof ∨ e = .unexpectedEOF := by
  cases v with
  | v1 => exact decodeV1Header_err h
  | v2 => exact decodeV2Header_err h
  | v3 => exact decodeV2Header_err h

theorem decodeHeader_snd_lt {v : Version} {bo : ByteOrder} {s : ByteStream} (h : s ≠ []) :
    ((decodeHeader v bo { s := s, err := none }).2).s.length < s.length := by
  cases v with
  | v1 => exact decodeV1Header_snd_lt h
  | v2 => exact decodeV2Header_snd_lt h
  | v3 => exact decodeV2Header_snd_lt h

theorem decodeHeader_nil {v : Version} {bo : ByteOrder} :
    decodeHeader v bo { s := [], err := none } = (.error .eof, { s := [], err := some .eof }) := by
  have h1 : decodeV1Header bo { s := [], err := none }
      = (.error .eof, { s := [], err := some .eof }) := by
    unfold decodeV1Header
    rfl
  cases v with
  | v1 => exact h1
  | v2 =>
    unfold decodeHeader decodeV2Header
    rw [h1]
  | v3 =>
    unfold decodeHeader decodeV2Header
    rw [h1]

theorem bytesPerColor_ok_of_le {hh : Header} (h : hh.cupsColorOrder ≤ 2) :
    ∃ b, bytesPerColor hh = .ok b := by
  unfold bytesPerColor ChunkyPixels BandedPixels PlanarPixels
  split_ifs with h1 h2
  · exact ⟨_, rfl⟩
  · exact ⟨_, rfl⟩
  · omega

theorem bytesPerColor_err {hh : Header} {e : Err}
    (h : bytesPerColor hh = .error e) : e = .invalidFormat := by
  unfold bytesPerColor at h
  split_ifs at h
  all_goals first
    | (cases h; rfl)
    | cases h

/-- The clean end-of-input is returned by the header phase of `NextPage`
exactly when the stream was exhausted before any header byte. -/
theorem NextPageFresh_eof_iff {d : Decoder} {s : ByteStream} :
    NextPageFresh d s = .error .eof ↔ s = [] := by
  constructor
  · intro h
    by_contra hne
    unfold NextPageFresh at h
    cases hr : decodeHeader d.version d.bo { s := s, err := none } with
    | mk res st' =>
      rw [hr] at h
      dsimp only at h
      cases res with
      | ok hh =>
        dsimp only at h
        cases hbpc : bytesPerColor hh with
        | error e =>
          rw [hbpc] at h
          have := bytesPerColor_err hbpc
          subst this
          simp at h
        | ok bpc =>
          rw [hbpc] at h
          simp at h
      | error e =>
        dsimp only at h
        rcases decodeHeader_err hr with h2 | h2 <;> subst h2
        · have hlt := @decodeHeader_snd_lt d.version d.bo s hne
          rw [hr] at hlt
          rw [if_pos ⟨rfl, by dsimp only at hlt ⊢; omega⟩] at h
          cases h
        · rw [if_neg (by simp)] at h
          cases h
  · intro h
    subst h
    unfold NextPageFresh
    rw [decodeHeader_nil]
    dsimp only
    rw [if_neg (by simp)]

/-- A stream that ends inside the header (nonempty but shorter than the
full header) makes the header phase fail with `io.ErrUnexpectedEOF`. -/
theorem NextPageFresh_short {d : Decoder} {s : ByteStream}
    (hne : s ≠ []) (hlen : s.length < headerLen d.version) :
    NextPageFresh d s = .error .unexpectedEOF := by
  unfold NextPageFresh
  cases hr : decodeHeader d.version d.bo { s := s, err := none } with
  | mk res st' =>
    dsimp only
    cases res with
    | ok hh =>
      obtain ⟨hge, -⟩ := decodeHeader_ok_len hr
      omega
    | error e =>
      dsimp only
      rcases decodeHeader_err hr with h2 | h2 <;> subst h2
      · have hlt := @decodeHeader_snd_lt d.version d.bo s hne
        rw [hr] at hlt
        rw [if_pos ⟨rfl, by dsimp only at hlt ⊢; omega⟩]
      · rw [if_neg (by simp)]

/-- With a long-enough stream the header phase of `NextPage` parses the
header, and succeeds whenever the derived color-group width does. -/
theorem NextPageFresh_ok_of_len {d : Decoder} {s : ByteStream}
    (hlen : headerLen d.version ≤ s.length) :
    ∃ hh, decodeHeader d.version d.bo { s := s, err := none }
        = (.ok hh, { s := s.drop (headerLen d.version), err := none }) ∧
      ∀ bpc, bytesPerColor hh = .ok bpc →
        NextPageFresh d s =
          .ok ({ header := hh, line := [], color := bpc, lineRep := 0, linesRead := 0 },
            { version := d.version, bo := d.bo, curPage :=
              some { header := hh, line := [], color := bpc, lineRep := 0, linesRead := 0 } },
            s.drop (headerLen d.version)) := by
  obtain ⟨hh, heq⟩ := @decodeHeader_ok_of_len d.version d.bo s hlen
  refine ⟨hh, heq, ?_⟩
  intro bpc hbpc
  unfold NextPageFresh
  rw [heq]
  dsimp only
  rw [hbpc]

theorem NextPage_none {d : Decoder} {s : ByteStream} (hc : d.curPage = none) :
    NextPage d s = NextPageFresh d s := by
  unfold NextPage
  rw [hc]

theorem NextPage_some {d : Decoder} {p : Page} {s : ByteStream} (hc : d.curPage = some p) :
    NextPage d s =
      match discard d.version p s with
      | .error e => .error e
      | .ok (_, s') => NextPageFresh d s' := by
  unfold NextPage
  rw [hc]

/-! ## Termination of the run-length loop: the fuel variant never runs out -/

theorem assembleF_eq {bpl bpc : Nat} :
    ∀ {fuel : Nat} {s : ByteStream}, s.length < fuel →
      ∀ line, assembleF fuel bpl bpc line s = some (assemble bpl bpc line s) := by
  intro fuel
  induction fuel with
  | zero =>
    intro s h
    omega
  | succ fuel ih =>
    intro s h line
    unfold assembleF
    by_cases hb : bpl ≤ line.length
    · rw [if_pos hb, assemble_stop hb]
    · rw [if_neg hb]
      cases s with
      | nil => rw [assemble_nil (by omega)]
      | cons n rest =>
        have hrest : rest.length < fuel := by
          simp only [List.length_cons] at h
          omega
        dsimp only
        by_cases hn : n ≤ 127
        · rw [if_pos hn]
          cases hr : readFull bpc rest with
          | error e =>
            rw [assemble_cons_rep_err (by omega) hn hr]
          | ok pr =>
            obtain ⟨grp, rest'⟩ := pr
            rw [assemble_cons_rep (by omega) hn hr]
            dsimp only
            exact ih (by have := readFull_ok_len hr; omega) _
        · rw [if_neg hn]
          cases hg : readGroups bpc (257 - n) line rest with
          | error e =>
            rw [assemble_cons_lit_err (by omega) hn hg]
          | ok pr =>
            obtain ⟨line', rest'⟩ := pr
            rw [assemble_cons_lit (by omega) hn hg]
            dsimp only
            exact ih (by have := readGroups_ok_len hg; omega) _

theorem readV2LineF_eq {p : Page} {buf : List Nat} {s : ByteStream} {fuel : Nat}
    (hfuel : s.length ≤ fuel) :
    readV2LineF fuel p buf s = some (readV2Line p buf s) := by
  unfold readV2LineF readV2Line
  by_cases hrep : 0 < p.lineRep
  · rw [if_pos hrep, if_pos hrep]
  · rw [if_neg hrep, if_neg hrep]
    cases s with
    | nil => rfl
    | cons r rest =>
      have hrest : rest.length < fuel := by
        simp only [List.length_cons] at hfuel
        omega
      dsimp only
      rw [assembleF_eq hrest]
      cases ha : assemble p.header.cupsBytesPerLine p.color [] rest with
      | error e => cases e <;> rfl
      | ok pr => rfl

theorem readLineF_eq {v : Version} {p : Page} {buf : List Nat} {s : ByteStream} :
    readLineF (s.length + 1) v p buf s = some (readLine v p buf s) := by
  unfold readLineF readLine
  split_ifs
  · rfl
  · rfl
  · cases v with
    | v1 => rfl
    | v2 => exact readV2LineF_eq (by omega)
    | v3 => rfl

/-! ## Lemmas about `ParseColors` -/

set_option maxRecDepth 8000 in
/-- The source's bit test `packet<<i & 128 == 0` (on bytes) checks bit
`7 − i`, counting from the least significant bit. -/
theorem blackBit_eq :
    ∀ p < 256, ∀ i < 8, (((p <<< i) % 256) &&& 128 = 0 ↔ p.testBit (7 - i) = false) := by
  decide

/-- One-bit black parsing, re-expressed by bit positions: every byte
becomes eight gray pixels, most significant bit first, a set bit giving
black (gray 0) and a clear bit white (gray 255). -/
theorem parseColorsBlack_one {b : List Nat} (hb : ∀ x ∈ b, x < 256) :
    parseColorsBlack 1 b = .ok ((b.map (fun packet =>
      (List.range 8).map (fun i =>
        if packet.testBit (7 - i) then Color.gray 0 else Color.gray 255))).flatten) := by
  unfold parseColorsBlack
  rw [if_pos rfl]
  congr 1
  congr 1
  apply List.map_congr_left
  intro packet hp
  apply List.map_congr_left
  intro i hi
  have hi8 : i < 8 := List.mem_range.mp hi
  have hbit := blackBit_eq packet (hb packet hp) i hi8
  by_cases ht : packet.testBit (7 - i)
  · rw [if_pos ht, if_neg]
    intro hc
    rw [hbit.mp hc] at ht
    cases ht
  · rw [if_neg ht, if_pos (hbit.mpr (by simp [ht]))]

theorem cmykGroups_length :
    ∀ {b : List Nat}, b.length % 4 = 0 → (cmykGroups b).length = b.length / 4 := by
  intro b
  induction b using cmykGroups.induct with
  | case1 c m y k rest ih =>
    intro h
    simp only [List.length_cons] at h
    simp only [cmykGroups, List.length_cons]
    rw [ih (by omega)]
    omega
  | case2 b hb =>
    intro h
    match b, hb with
    | [], _ => simp [cmykGroups]
    | [a], h2 => simp at h
    | [a, b], h2 => simp at h
    | [a, b, c], h2 => simp at h
    | a :: b :: c :: d :: t, h2 => exact absurd rfl (h2 a b c d t)

theorem getD_shift4 {c m y k : Nat} {l : List Nat} (n : Nat) :
    (c :: m :: y :: k :: l).getD (n + 4) 0 = l.getD n 0 := by
  have h4 : n + 4 = (((n + 1) + 1) + 1) + 1 := by ring
  rw [h4]
  simp only [List.getD_cons_succ]

theorem cmykGroups_get :
    ∀ (i : Nat) (b : List Nat), 4 * i + 3 < b.length →
      (cmykGroups b).get? i =
        some (Color.cmyk (b.getD (4 * i) 0) (b.getD (4 * i + 1) 0)
          (b.getD (4 * i + 2) 0) (b.getD (4 * i + 3) 0)) := by
  intro i
  induction i with
  | zero =>
    intro b h
    match b, h with
    | c :: m :: y :: k :: rest, _ =>
      simp [cmykGroups]
  | succ i ih =>
    intro b h
    match b, h with
    | c :: m :: y :: k :: rest, h =>
      have h' : 4 * i + 3 < rest.length := by
        simp only [List.length_cons] at h
        omega
      have hrec := ih rest h'
      simp only [cmykGroups, List.get?_cons_succ]
      rw [hrec]
      have e3 : 4 * (i + 1) + 3 = (4 * i + 3) + 4 := by ring
      have e2 : 4 * (i + 1) + 2 = (4 * i + 2) + 4 := by ring
      have e1 : 4 * (i + 1) + 1 = (4 * i + 1) + 4 := by ring
      have e0 : 4 * (i + 1) = 4 * i + 4 := by ring
      rw [e3, e2, e1, e0, getD_shift4, getD_shift4, getD_shift4, getD_shift4]

theorem length_flatten_replicate (n : Nat) (l : List Nat) :
    ((List.replicate n l).flatten).length = n * l.length := by
  induction n with
  | zero => simp
  | succ n ih =>
    rw [List.replicate_succ]
    simp only [List.flatten_cons, List.length_append, ih]
    ring

/-! ## The claims -/

/-- C1: For every version-2 page, `ReadLine` implements the run-length
state machine: a positive pending-repeat counter is decremented and a
byte-identical copy of the previously decoded line is returned without
consuming stream bytes (so a control byte R causes exactly R subsequent
`ReadLine` calls to replay the line); otherwise one control byte R is
read, the counter is set to R, and the line is assembled from packets — a
packet byte P ≤ 127 is followed by one color group appended (P+1) times,
a packet byte P ∈ [128,255] by (257−P) literal color groups appended once
each — until the assembled line reaches `bytesPerLine`. -/
theorem claim_C1_v2_runlength_state_machine :
    (∀ (p : Page) (buf : List Nat) (s : ByteStream), 0 < p.lineRep →
        readV2Line p buf s =
          .ok (goCopy buf p.line, { p with lineRep := p.lineRep - 1 }, s)) ∧
    (∀ (dst src : List Nat), src.length = dst.length → goCopy dst src = src) ∧
    (∀ (p : Page) (buf : List Nat) (r : Nat) (rest : ByteStream), p.lineRep = 0 →
        readV2Line p buf (r :: rest) =
          match assemble p.header.cupsBytesPerLine p.color [] rest with
          | .error .eof => .error .unexpectedEOF
          | .error e => .error e
          | .ok (line, s') =>
            .ok (goCopy buf line, { p with line := line, lineRep := r }, s')) ∧
    (∀ (bpl bpc P : Nat) (line : List Nat) (rest : ByteStream),
        line.length < bpl → P ≤ 127 → bpc ≤ rest.length →
        assemble bpl bpc line (P :: rest) =
          assemble bpl bpc (line ++ (List.replicate (P + 1) (rest.take bpc)).flatten)
            (rest.drop bpc)) ∧
    (∀ (bpl bpc P : Nat) (line : List Nat) (rest : ByteStream),
        line.length < bpl → 128 ≤ P → (257 - P) * bpc ≤ rest.length →
        assemble bpl bpc line (P :: rest) =
          assemble bpl bpc (line ++ rest.take ((257 - P) * bpc))
            (rest.drop ((257 - P) * bpc))) ∧
    (∀ (bpl bpc : Nat) (line : List Nat) (s : ByteStream), bpl ≤ line.length →
        assemble bpl bpc line s = .ok (line, s)) ∧
    (∀ (p : Page) (buf : List Nat) (s : ByteStream) (k : Nat),
        k ≤ p.lineRep → k ≤ UnreadLines p →
        p.header.cupsBytesPerLine ≤ buf.length → buf.length = p.line.length →
        readLineIter .v2 k p buf s =
          .ok (List.replicate k p.line,
            { p with lineRep := p.lineRep - k, linesRead := p.linesRead + k }, s)) := by
  refine ⟨?_, ?_, ?_, ?_, ?_, ?_, ?_⟩
  · intro p buf s h
    exact readV2Line_replay h
  · intro dst src h
    exact goCopy_of_len_eq h
  · intro p buf r rest h
    exact readV2Line_fresh h
  · intro bpl bpc P line rest hlt hP hbpc
    exact assemble_cons_rep hlt hP (readFull_of_le hbpc)
  · intro bpl bpc P line rest hlt hP hk
    exact assemble_cons_lit hlt (by omega) (readGroups_ok_take hk)
  · intro bpl bpc line s h
    exact assemble_stop h
  · intro p buf s k h1 h2 h3 h4
    exact readLineIter_replay h1 h2 h3 h4

/-- C2: `NextPage` on a decoder with a current page first consumes that
page's remaining lines through the normal line decoder (the `discard`
loop over `ReadLine`, not a byte-count skip); for a well-formed remainder
the next page's header is parsed and returned without error, and if the
remaining lines are truncated mid-stream `NextPage` fails with
`io.ErrUnexpectedEOF`, never with a clean end-of-input. -/
theorem claim_C2_nextpage_drains_through_decoder :
    ∀ (d : Decoder) (p : Page) (s : ByteStream), d.curPage = some p →
      (NextPage d s =
        match discard d.version p s with
        | .error e => .error e
        | .ok (_, s') => NextPageFresh d s') ∧
      (discard d.version p s
        = discardGo d.version (UnreadLines p) p (List.replicate (LineSize p) 0) s) ∧
      (∀ e, discard d.version p s = .error e →
        e = .unexpectedEOF ∧ NextPage d s = .error .unexpectedEOF) ∧
      (∀ (q : Page) (s' : ByteStream), discard d.version p s = .ok (q, s') →
        headerLen d.version ≤ s'.length →
        ∃ hh, decodeHeader d.version d.bo { s := s', err := none }
            = (.ok hh, { s := s'.drop (headerLen d.version), err := none }) ∧
          (hh.cupsColorOrder ≤ 2 →
            ∃ pg d2 s2, NextPage d s = .ok (pg, d2, s2) ∧ pg.header = hh ∧
              s2 = s'.drop (headerLen d.version))) := by
  intro d p s hc
  refine ⟨NextPage_some hc, rfl, ?_, ?_⟩
  · intro e he
    have h1 := discard_err he
    subst h1
    refine ⟨rfl, ?_⟩
    rw [NextPage_some hc, he]
  · intro q s' hd hlen
    obtain ⟨hh, heq, hnp⟩ := NextPageFresh_ok_of_len hlen
    refine ⟨hh, heq, ?_⟩
    intro hco
    obtain ⟨bpc, hbpc⟩ := bytesPerColor_ok_of_le hco
    have hok := hnp bpc hbpc
    refine ⟨{ header := hh, line := [], color := bpc, lineRep := 0, linesRead := 0 },
      { version := d.version, bo := d.bo, curPage :=
        some { header := hh, line := [], color := bpc, lineRep := 0, linesRead := 0 } },
      s'.drop (headerLen d.version), ?_, rfl, rfl⟩
    rw [NextPage_some hc, hd]
    exact hok

/-- C3: `NextPage` returns the clean `io.EOF` signal only when the stream
is exhausted before any byte of the next header has been consumed; once
header parsing has started (the stream is nonempty but shorter than the
header), it fails with `io.ErrUnexpectedEOF` instead.  With a current
page, the clean signal appears exactly when draining succeeds and leaves
an empty stream. -/
theorem claim_C3_clean_eof_only_at_boundary :
    ∀ (d : Decoder) (s : ByteStream),
      (d.curPage = none →
        (NextPage d s = .error .eof ↔ s = []) ∧
        (s ≠ [] → s.length < headerLen d.version →
          NextPage d s = .error .unexpectedEOF)) ∧
      (∀ p, d.curPage = some p →
        (NextPage d s = .error .eof ↔
          ∃ q, discard d.version p s = .ok (q, []))) := by
  intro d s
  constructor
  · intro hc
    rw [NextPage_none hc]
    exact ⟨NextPageFresh_eof_iff, fun h1 h2 => NextPageFresh_short h1 h2⟩
  · intro p hc
    rw [NextPage_some hc]
    cases hd : discard d.version p s with
    | error e =>
      have h1 := discard_err hd
      subst h1
      constructor
      · intro h
        cases h
      · rintro ⟨q, hq⟩
        cases hq
    | ok pr =>
      obtain ⟨q, s'⟩ := pr
      dsimp only
      rw [NextPageFresh_eof_iff]
      constructor
      · intro h
        subst h
        exact ⟨q, rfl⟩
      · rintro ⟨q2, hq⟩
        injection hq with hq2
        exact congrArg Prod.snd hq2

/-- C4 (amended): in raw mode (versions 1 and 3), `ReadLine` with a
large-enough buffer and unread lines reads exactly `bytesPerLine` bytes
from the stream into the caller's buffer; a partial short read fails with
`io.ErrUnexpectedEOF`, but when the stream is exhausted with zero bytes
available at a line boundary (and `bytesPerLine > 0`) `ReadLine` returns
the clean `io.EOF` signal even though lines remain. -/
theorem claim_C4_raw_mode_readline :
    ∀ (v : Version), (v = .v1 ∨ v = .v3) →
    ∀ (p : Page) (buf : List Nat) (s : ByteStream),
      p.header.cupsBytesPerLine ≤ buf.length → UnreadLines p ≠ 0 →
      (p.header.cupsBytesPerLine ≤ s.length →
        readLine v p buf s =
          .ok (s.take p.header.cupsBytesPerLine ++ buf.drop p.header.cupsBytesPerLine,
            { p with linesRead := p.linesRead + 1 }, s.drop p.header.cupsBytesPerLine)) ∧
      (0 < s.length → s.length < p.header.cupsBytesPerLine →
        readLine v p buf s = .error .unexpectedEOF) ∧
      (s = [] → 0 < p.header.cupsBytesPerLine →
        readLine v p buf s = .error .eof) := by
  intro v hv p buf s hbuf hu
  refine ⟨?_, ?_, ?_⟩
  · intro hs
    rcases hv with h2 | h2 <;> subst h2
    · rw [readLine_v1_eq hbuf hu]
      exact @readRawLine_ok { p with linesRead := p.linesRead + 1 } buf
        (s.take p.header.cupsBytesPerLine) s (s.drop p.header.cupsBytesPerLine)
        (readFull_of_le hs)
    · rw [readLine_v3_eq hbuf hu]
      exact @readRawLine_ok { p with linesRead := p.linesRead + 1 } buf
        (s.take p.header.cupsBytesPerLine) s (s.drop p.header.cupsBytesPerLine)
        (readFull_of_le hs)
  · intro h0 hlt
    rcases hv with h2 | h2 <;> subst h2
    · rw [readLine_v1_eq hbuf hu]
      exact readRawLine_err (readFull_short h0 hlt)
    · rw [readLine_v3_eq hbuf hu]
      exact readRawLine_err (readFull_short h0 hlt)
  · intro hnil hpos
    subst hnil
    rcases hv with h2 | h2 <;> subst h2
    · rw [readLine_v1_eq hbuf hu]
      exact readRawLine_err (readFull_empty_pos hpos)
    · rw [readLine_v3_eq hbuf hu]
      exact readRawLine_err (readFull_empty_pos hpos)

/-- C4 counterexample: a version-1 page with one unread line and
`bytesPerLine = 1`, reading from an exhausted stream, returns the clean
`io.EOF` signal, not `io.ErrUnexpectedEOF` as the claim asserts. -/
theorem claim_C4_counterexample :
    readLine .v1
      { header := { cupsHeight := 2, cupsBytesPerLine := 1 }, line := [],
        color := 1, lineRep := 0, linesRead := 1 } [0] [] = .error .eof ∧
    (Err.eof ≠ Err.unexpectedEOF) := by
  exact ⟨rfl, by decide⟩

/-- C5: `ReadAll(buffer)` fails with `ErrBufferTooSmall` exactly when the
buffer is shorter than `bytesPerLine × UnreadLines()` (that is,
`bytesPerLine × (height − linesRead)`); a buffer of exactly that size is
accepted, and in raw mode it receives the remaining lines. -/
theorem claim_C5_readall_buffer_check :
    ∀ (v : Version) (p : Page) (buf : List Nat) (s : ByteStream),
      (ReadAll v p buf s = .error .bufferTooSmall ↔
        buf.length < p.header.cupsBytesPerLine * UnreadLines p) ∧
      (UnreadLines p = p.header.cupsHeight - p.linesRead) ∧
      ((v = .v1 ∨ v = .v3) →
        buf.length = p.header.cupsBytesPerLine * UnreadLines p →
        0 < UnreadLines p →
        p.header.cupsBytesPerLine * UnreadLines p ≤ s.length →
        ReadAll v p buf s =
          .ok (s.take (p.header.cupsBytesPerLine * UnreadLines p),
            { p with linesRead := p.linesRead + UnreadLines p },
            s.drop (p.header.cupsBytesPerLine * UnreadLines p))) := by
  intro v p buf s
  refine ⟨ReadAll_bts_iff, rfl, ?_⟩
  intro hv hlen hu hs
  unfold ReadAll
  rw [if_neg (by unfold Size; omega), if_neg (by omega)]
  exact ReadAllGo_raw hv hlen (le_refl _) hs

/-- C6: for every header `NextPage` accepts — chunky color order always
yields a color-group width, including width 0 when bits-per-pixel is 0 —
and every finite stream, each `ReadLine` call terminates: the step-indexed
decoder with a budget of one packet per stream byte (plus one) never runs
out of fuel and computes `ReadLine`'s result. -/
theorem claim_C6_readline_terminates :
    (∀ (v : Version) (p : Page) (buf : List Nat) (s : ByteStream),
        readLineF (s.length + 1) v p buf s = some (readLine v p buf s)) ∧
    (∀ hh : Header, hh.cupsColorOrder = ChunkyPixels →
        bytesPerColor hh = .ok ((hh.cupsBitsPerPixel + 7) / 8)) ∧
    (∀ hh : Header, hh.cupsColorOrder = ChunkyPixels → hh.cupsBitsPerPixel = 0 →
        bytesPerColor hh = .ok 0) := by
  refine ⟨?_, ?_, ?_⟩
  · intro v p buf s
    exact readLineF_eq
  · intro hh h
    unfold bytesPerColor
    rw [if_pos h]
  · intro hh h h0
    unfold bytesPerColor
    rw [if_pos h, h0]

/-- C7: a version-2 packet whose color groups extend the assembled line
past `bytesPerLine` is neither rejected nor cut off: the whole packet is
appended, assembly stops as soon as the line length is at least
`bytesPerLine`, `ReadLine` succeeds, and the assembled bytes — possibly
more than `bytesPerLine` of them — are copied into the caller's buffer up
to the buffer's length. -/
theorem claim_C7_overshoot_policy :
    (∀ (bpl bpc P : Nat) (line : List Nat) (rest : ByteStream),
        P ≤ 127 → line.length < bpl → bpc ≤ rest.length →
        bpl ≤ line.length + (P + 1) * bpc →
        assemble bpl bpc line (P :: rest)
            = .ok (line ++ (List.replicate (P + 1) (rest.take bpc)).flatten,
              rest.drop bpc) ∧
          (line ++ (List.replicate (P + 1) (rest.take bpc)).flatten).length
            = line.length + (P + 1) * bpc) ∧
    (∀ (bpl bpc P : Nat) (line : List Nat) (rest : ByteStream),
        128 ≤ P → line.length < bpl → (257 - P) * bpc ≤ rest.length →
        bpl ≤ line.length + (257 - P) * bpc →
        assemble bpl bpc line (P :: rest)
          = .ok (line ++ rest.take ((257 - P) * bpc),
            rest.drop ((257 - P) * bpc))) ∧
    (∀ (p : Page) (buf : List Nat) (r : Nat) (rest s' : ByteStream) (line : List Nat),
        p.lineRep = 0 →
        assemble p.header.cupsBytesPerLine p.color [] rest = .ok (line, s') →
        readV2Line p buf (r :: rest)
          = .ok (goCopy buf line, { p with line := line, lineRep := r }, s')) ∧
    (∀ (dst src : List Nat), dst.length ≤ src.length →
        goCopy dst src = src.take dst.length) := by
  refine ⟨?_, ?_, ?_, ?_⟩
  · intro bpl bpc P line rest hP hlt hbpc hov
    have htake : (rest.take bpc).length = bpc := by
      simp only [List.length_take]
      omega
    have hflat : ((List.replicate (P + 1) (rest.take bpc)).flatten).length = (P + 1) * bpc := by
      rw [length_flatten_replicate, htake]
    have hlen2 : (line ++ (List.replicate (P + 1) (rest.take bpc)).flatten).length
        = line.length + (P + 1) * bpc := by
      simp only [List.length_append, hflat]
    refine ⟨?_, hlen2⟩
    rw [assemble_cons_rep hlt hP (readFull_of_le hbpc)]
    exact assemble_stop (by omega)
  · intro bpl bpc P line rest hP hlt hk hov
    rw [assemble_cons_lit hlt (by omega) (readGroups_ok_take hk)]
    refine assemble_stop ?_
    have htake : (rest.take ((257 - P) * bpc)).length = (257 - P) * bpc := by
      simp only [List.length_take]
      omega
    simp only [List.length_append, htake]
    omega
  · intro p buf r rest s' line hrep ha
    exact readV2Line_fresh_ok hrep ha
  · intro dst src h
    exact goCopy_of_le h

/-- C8: opening a stream reads exactly 4 magic bytes and fixes version and
byte order by the mapping RaSt/tSaR → v1, RaS2/2SaR → v2, RaS3/3SaR → v3
(big/little endian respectively); any other 4-byte sequence fails with
`ErrUnknownVersion`, and a short read of the magic surfaces the underlying
I/O failure unchanged. -/
theorem claim_C8_magic_detection :
    (parseMagic syncV1BE = some (.v1, .be)) ∧
    (parseMagic syncV2BE = some (.v2, .be)) ∧
    (parseMagic syncV3BE = some (.v3, .be)) ∧
    (parseMagic syncV1LE = some (.v1, .le)) ∧
    (parseMagic syncV2LE = some (.v2, .le)) ∧
    (parseMagic syncV3LE = some (.v3, .le)) ∧
    (∀ b : List Nat, b.length = 4 →
      b ≠ syncV1BE → b ≠ syncV1LE → b ≠ syncV2BE → b ≠ syncV2LE →
      b ≠ syncV3BE → b ≠ syncV3LE → parseMagic b = none) ∧
    (∀ s : ByteStream, 4 ≤ s.length →
      (∀ (v : Version) (bo : ByteOrder), parseMagic (s.take 4) = some (v, bo) →
        NewDecoder s = .ok ({ version := v, bo := bo, curPage := none }, s.drop 4)) ∧
      (parseMagic (s.take 4) = none → NewDecoder s = .error .unknownVersion)) ∧
    (∀ s : ByteStream, s.length < 4 →
      NewDecoder s = .error (if s.length = 0 then .eof else .unexpectedEOF)) := by
  refine ⟨by decide, by decide, by decide, by decide, by decide, by decide, ?_, ?_, ?_⟩
  · intro b hlen h1 h2 h3 h4 h5 h6
    unfold parseMagic
    rw [if_neg (by omega)]
    rw [if_neg h1, if_neg h3, if_neg h5, if_neg h2, if_neg h4, if_neg h6]
  · intro s hs
    constructor
    · intro v bo hp
      unfold NewDecoder
      rw [readFull_of_le hs]
      dsimp only
      rw [hp]
    · intro hp
      unfold NewDecoder
      rw [readFull_of_le hs]
      dsimp only
      rw [hp]
  · intro s hs
    by_cases h0 : s.length = 0
    · rw [if_pos h0]
      have hnil : s = [] := List.eq_nil_of_length_eq_zero h0
      subst hnil
      unfold NewDecoder
      rw [readFull_empty_pos (by omega)]
    · rw [if_neg h0]
      unfold NewDecoder
      rw [readFull_short (by omega) hs]

/-- C9: with chunky color order, the Black color space and 1 bit per
color, `ParseColors` maps every input byte to exactly 8 gray pixels, most
significant bit first — a 0 bit gives white (gray 255) and a 1 bit black
(gray 0); in particular byte 0x00 gives 8 pixels of gray 255 and byte
0xFF gives 8 pixels of gray 0. -/
theorem claim_C9_black_one_bit :
    ∀ hh : Header, hh.cupsColorOrder = ChunkyPixels →
      hh.cupsColorSpace = ColorSpaceBlack → hh.cupsBitsPerColor = 1 →
      (∀ b : List Nat, (∀ x ∈ b, x < 256) →
        ParseColors hh b = .ok ((b.map (fun packet =>
          (List.range 8).map (fun i =>
            if packet.testBit (7 - i) then Color.gray 0 else Color.gray 255))).flatten)) ∧
      ParseColors hh [0] = .ok (List.replicate 8 (Color.gray 255)) ∧
      ParseColors hh [255] = .ok (List.replicate 8 (Color.gray 0)) := by
  intro hh hco hcs hbpc
  have hdispatch : ∀ b : List Nat, ParseColors hh b = parseColorsBlack 1 b := by
    intro b
    unfold ParseColors
    rw [if_neg (by rw [hco]; simp), if_pos hcs, hbpc]
  refine ⟨?_, ?_, ?_⟩
  · intro b hb
    rw [hdispatch]
    exact parseColorsBlack_one hb
  · rw [hdispatch]
    rfl
  · rw [hdispatch]
    rfl

/-- C10: with chunky color order, the CMYK color space and 8 bits per
color, `ParseColors` fails with `ErrInvalidFormat` exactly when the input
length is not a positive multiple of 4 (including the empty input);
otherwise it returns `len/4` pixels, each consecutive 4-byte group giving
a pixel with channels C, M, Y, K in that byte order. -/
theorem claim_C10_cmyk_eight_bit :
    ∀ hh : Header, hh.cupsColorOrder = ChunkyPixels →
      hh.cupsColorSpace = ColorSpaceCMYK → hh.cupsBitsPerColor = 8 →
      (∀ b : List Nat,
        (ParseColors hh b = .error .invalidFormat ↔
          ¬(b.length % 4 = 0 ∧ 0 < b.length)) ∧
        (b.length % 4 = 0 → 0 < b.length →
          ParseColors hh b = .ok (cmykGroups b) ∧
          (cmykGroups b).length = b.length / 4 ∧
          (∀ i, 4 * i + 3 < b.length →
            (cmykGroups b).get? i =
              some (Color.cmyk (b.getD (4 * i) 0) (b.getD (4 * i + 1) 0)
                (b.getD (4 * i + 2) 0) (b.getD (4 * i + 3) 0))))) ∧
      ParseColors hh [10, 20, 30, 40] = .ok [Color.cmyk 10 20 30 40] := by
  intro hh hco hcs hbpc
  have hdispatch : ∀ b : List Nat, ParseColors hh b = parseColorsCMYK 8 b := by
    intro b
    unfold ParseColors
    rw [if_neg (by rw [hco]; simp), if_neg (by rw [hcs]; unfold ColorSpaceBlack ColorSpaceCMYK; omega),
      if_pos hcs, hbpc]
  refine ⟨?_, ?_⟩
  · intro b
    rw [hdispatch]
    constructor
    · unfold parseColorsCMYK
      rw [if_neg (by omega)]
      constructor
      · intro h
        split_ifs at h with hc
        · omega
        all_goals cases h
      · intro h
        rw [if_pos (by omega)]
    · intro h4 h0
      unfold parseColorsCMYK
      rw [if_neg (by omega), if_neg (by omega)]
      exact ⟨rfl, cmykGroups_length h4, fun i hi => cmykGroups_get i b hi⟩
  · rw [hdispatch]
    rfl

/-! ## Witnesses: the claims instantiated at concrete inputs -/

/-- C1 witness: a cached line `[9,9]` with pending repeat 3 replays twice
through `ReadLine` without consuming the stream, and a repeat packet steps
the assembly loop as described. -/
theorem claim_C1_witness :
    readLineIter .v2 2
      { header := { cupsHeight := 5, cupsBytesPerLine := 2 }, line := [9, 9],
        color := 1, lineRep := 3, linesRead := 1 } [0, 0] [1, 2, 3]
      = .ok ([[9, 9], [9, 9]],
        { header := { cupsHeight := 5, cupsBytesPerLine := 2 }, line := [9, 9],
          color := 1, lineRep := 1, linesRead := 3 }, [1, 2, 3]) ∧
    assemble 2 1 [] (1 :: [7, 8]) =
      assemble 2 1 ([] ++ (List.replicate 2 ([7, 8].take 1)).flatten) ([7, 8].drop 1) := by
  constructor
  · exact claim_C1_v2_runlength_state_machine.2.2.2.2.2.2
      { header := { cupsHeight := 5, cupsBytesPerLine := 2 }, line := [9, 9],
        color := 1, lineRep := 3, linesRead := 1 } [0, 0] [1, 2, 3] 2
      (by decide) (by decide) (by decide) (by decide)
  · exact claim_C1_v2_runlength_state_machine.2.2.2.1 2 1 1 [] [7, 8]
      (by decide) (by decide) (by decide)

/-- C2 witness: with a fully read current page, `NextPage` on a 420-byte
(version-1) header parses it; with an unread line and an exhausted stream,
`NextPage` fails with `io.ErrUnexpectedEOF`. -/
theorem claim_C2_witness :
    (∃ hh, decodeHeader .v1 .be { s := List.replicate 420 0, err := none }
        = (.ok hh,
           { s := (List.replicate 420 0 : ByteStream).drop (headerLen .v1), err := none }) ∧
      (hh.cupsColorOrder ≤ 2 →
        ∃ pg d2 s2,
          NextPage
            { version := .v1, bo := .be, curPage :=
              some { header := { cupsHeight := 1, cupsBytesPerLine := 1 },
                     line := [], color := 1, lineRep := 0, linesRead := 1 } }
            (List.replicate 420 0) = .ok (pg, d2, s2) ∧ pg.header = hh ∧
          s2 = (List.replicate 420 0 : ByteStream).drop (headerLen .v1))) ∧
    NextPage
      { version := .v1, bo := .be, curPage :=
        some { header := { cupsHeight := 2, cupsBytesPerLine := 1 },
               line := [], color := 1, lineRep := 0, linesRead := 1 } }
      [] = .error .unexpectedEOF := by
  constructor
  · exact (claim_C2_nextpage_drains_through_decoder
      { version := .v1, bo := .be, curPage :=
        some { header := { cupsHeight := 1, cupsBytesPerLine := 1 },
               line := [], color := 1, lineRep := 0, linesRead := 1 } }
      { header := { cupsHeight := 1, cupsBytesPerLine := 1 }, line := [],
        color := 1, lineRep := 0, linesRead := 1 }
      (List.replicate 420 0) rfl).2.2.2
      { header := { cupsHeight := 1, cupsBytesPerLine := 1 }, line := [],
        color := 1, lineRep := 0, linesRead := 1 }
      (List.replicate 420 0) rfl (by rw [List.length_replicate]; decide)
  · exact ((claim_C2_nextpage_drains_through_decoder
      { version := .v1, bo := .be, curPage :=
        some { header := { cupsHeight := 2, cupsBytesPerLine := 1 },
               line := [], color := 1, lineRep := 0, linesRead := 1 } }
      { header := { cupsHeight := 2, cupsBytesPerLine := 1 }, line := [],
        color := 1, lineRep := 0, linesRead := 1 }
      [] rfl).2.2.1 .unexpectedEOF rfl).2

/-- C3 witness: a fresh decoder on a 1-byte stream (mid-header) fails with
`io.ErrUnexpectedEOF`; on an empty stream it returns the clean `io.EOF`. -/
theorem claim_C3_witness :
    NextPage { version := .v1, bo := .be, curPage := none } [5] = .error .unexpectedEOF ∧
    NextPage { version := .v1, bo := .be, curPage := none } [] = .error .eof := by
  constructor
  · exact ((claim_C3_clean_eof_only_at_boundary
      { version := .v1, bo := .be, curPage := none } [5]).1 rfl).2 (by decide) (by decide)
  · exact ((claim_C3_clean_eof_only_at_boundary
      { version := .v1, bo := .be, curPage := none } []).1 rfl).1.mpr rfl

/-- C4 witness: a raw-mode `ReadLine` with two stream bytes available reads
exactly one `bytesPerLine` byte into the caller's buffer. -/
theorem claim_C4_witness :
    readLine .v1
      { header := { cupsHeight := 2, cupsBytesPerLine := 1 }, line := [],
        color := 1, lineRep := 0, linesRead := 0 } [7] [3, 4]
      = .ok ([3],
        { header := { cupsHeight := 2, cupsBytesPerLine := 1 }, line := [],
          color := 1, lineRep := 0, linesRead := 1 }, [4]) := by
  exact (claim_C4_raw_mode_readline .v1 (Or.inl rfl)
    { header := { cupsHeight := 2, cupsBytesPerLine := 1 }, line := [],
      color := 1, lineRep := 0, linesRead := 0 } [7] [3, 4]
    (by decide) (by decide)).1 (by decide)

/-- C5 witness: after one of three lines is read, a buffer of exactly
`2 × 2` bytes is accepted and receives the remaining raw lines, while a
3-byte buffer is `ErrBufferTooSmall`. -/
theorem claim_C5_witness :
    ReadAll .v1
      { header := { cupsHeight := 3, cupsBytesPerLine := 2 }, line := [],
        color := 1, lineRep := 0, linesRead := 1 } [0, 0, 0, 0] [1, 2, 3, 4, 5]
      = .ok ([1, 2, 3, 4],
        { header := { cupsHeight := 3, cupsBytesPerLine := 2 }, line := [],
          color := 1, lineRep := 0, linesRead := 3 }, [5]) ∧
    ReadAll .v1
      { header := { cupsHeight := 3, cupsBytesPerLine := 2 }, line := [],
        color := 1, lineRep := 0, linesRead := 1 } [0, 0, 0] [1, 2, 3, 4, 5]
      = .error .bufferTooSmall := by
  constructor
  · exact (claim_C5_readall_buffer_check .v1
      { header := { cupsHeight := 3, cupsBytesPerLine := 2 }, line := [],
        color := 1, lineRep := 0, linesRead := 1 } [0, 0, 0, 0] [1, 2, 3, 4, 5]).2.2
      (Or.inl rfl) (by decide) (by decide) (by decide)
  · exact (claim_C5_readall_buffer_check .v1
      { header := { cupsHeight := 3, cupsBytesPerLine := 2 }, line := [],
        color := 1, lineRep := 0, linesRead := 1 } [0, 0, 0] [1, 2, 3, 4, 5]).1.mpr
      (by decide)

/-- C6 witness: the step-indexed decoder computes a version-2 `ReadLine`
within the stream-length budget, and a chunky header with 0 bits per pixel
is accepted with color-group width 0. -/
theorem claim_C6_witness :
    readLineF ([5, 6, 7, 8].length + 1) .v2
      { header := { cupsHeight := 2, cupsBytesPerLine := 2 }, line := [],
        color := 0, lineRep := 0, linesRead := 0 } [0, 0] [5, 6, 7, 8]
      = some (readLine .v2
        { header := { cupsHeight := 2, cupsBytesPerLine := 2 }, line := [],
          color := 0, lineRep := 0, linesRead := 0 } [0, 0] [5, 6, 7, 8]) ∧
    bytesPerColor { cupsColorOrder := 0, cupsBitsPerPixel := 0 } = .ok 0 := by
  constructor
  · exact claim_C6_readline_terminates.1 .v2
      { header := { cupsHeight := 2, cupsBytesPerLine := 2 }, line := [],
        color := 0, lineRep := 0, linesRead := 0 } [0, 0] [5, 6, 7, 8]
  · exact claim_C6_readline_terminates.2.2 { cupsColorOrder := 0, cupsBitsPerPixel := 0 }
      rfl rfl

/-- C7 witness: a repeat packet of two 2-byte color groups overshoots a
3-byte line; the whole packet is kept and `goCopy` truncates to the
buffer's length. -/
theorem claim_C7_witness :
    assemble 3 2 [] (1 :: [7, 8, 9])
      = .ok ([] ++ (List.replicate 2 ([7, 8, 9].take 2)).flatten, [7, 8, 9].drop 2) ∧
    goCopy [0, 0, 0] [7, 8, 7, 8] = [7, 8, 7, 8].take 3 := by
  constructor
  · exact (claim_C7_overshoot_policy.1 3 2 1 [] [7, 8, 9]
      (by decide) (by decide) (by decide) (by decide)).1
  · exact claim_C7_overshoot_policy.2.2.2 [0, 0, 0] [7, 8, 7, 8] (by decide)

/-- C8 witness: the magic "RaSt" opens a version-1 big-endian decoder
leaving the rest of the stream; an unknown magic is rejected; a 1-byte
stream surfaces the short-read failure. -/
theorem claim_C8_witness :
    NewDecoder [82, 97, 83, 116, 9]
      = .ok ({ version := .v1, bo := .be, curPage := none }, [9]) ∧
    NewDecoder [1, 2, 3, 4] = .error .unknownVersion ∧
    NewDecoder [82] = .error .unexpectedEOF ∧
    parseMagic [1, 2, 3, 4] = none := by
  refine ⟨?_, ?_, ?_, ?_⟩
  · exact (claim_C8_magic_detection.2.2.2.2.2.2.2.1 [82, 97, 83, 116, 9]
      (by decide)).1 .v1 .be (by decide)
  · exact (claim_C8_magic_detection.2.2.2.2.2.2.2.1 [1, 2, 3, 4]
      (by decide)).2 (by decide)
  · exact claim_C8_magic_detection.2.2.2.2.2.2.2.2 [82] (by decide)
  · exact claim_C8_magic_detection.2.2.2.2.2.2.1 [1, 2, 3, 4]
      (by decide) (by decide) (by decide) (by decide) (by decide) (by decide) (by decide)

/-- C9 witness: 1-bit black parsing of the byte 0x00 gives 8 white pixels,
and of 0xAA the bit-alternating pattern. -/
theorem claim_C9_witness :
    ParseColors { cupsColorOrder := 0, cupsColorSpace := 3, cupsBitsPerColor := 1 } [0]
      = .ok (List.replicate 8 (Color.gray 255)) ∧
    ParseColors { cupsColorOrder := 0, cupsColorSpace := 3, cupsBitsPerColor := 1 } [170]
      = .ok (([170].map (fun packet =>
          (List.range 8).map (fun i =>
            if packet.testBit (7 - i) then Color.gray 0 else Color.gray 255))).flatten) := by
  constructor
  · exact (claim_C9_black_one_bit
      { cupsColorOrder := 0, cupsColorSpace := 3, cupsBitsPerColor := 1 } rfl rfl rfl).2.1
  · exact (claim_C9_black_one_bit
      { cupsColorOrder := 0, cupsColorSpace := 3, cupsBitsPerColor := 1 } rfl rfl rfl).1
      [170] (by decide)

/-- C10 witness: CMYK parsing of `[10,20,30,40]` yields the single pixel
with channels in order, and a 3-byte input is `ErrInvalidFormat`. -/
theorem claim_C10_witness :
    ParseColors { cupsColorOrder := 0, cupsColorSpace := 6, cupsBitsPerColor := 8 }
      [10, 20, 30, 40] = .ok [Color.cmyk 10 20 30 40] ∧
    ParseColors { cupsColorOrder := 0, cupsColorSpace := 6, cupsBitsPerColor := 8 }
      [1, 2, 3] = .error .invalidFormat := by
  constructor
  · exact (claim_C10_cmyk_eight_bit
      { cupsColorOrder := 0, cupsColorSpace := 6, cupsBitsPerColor := 8 } rfl rfl rfl).2
  · exact ((claim_C10_cmyk_eight_bit
      { cupsColorOrder := 0, cupsColorSpace := 6, cupsBitsPerColor := 8 } rfl rfl rfl).1
      [1, 2, 3]).1.mpr (by decide)

end CupsRaster
